import Mathlib

/-!
# CudnnLRN: the cuDNN adapter of the LRN layer

A shallow embedding of `src/model/layer/cudnn_lrn.cc`.  The adapter owns two
library descriptors, created lazily by `InitCudnn`, and a stack `buf_` of the
activations recorded by `Forward` and consumed by `Backward`.

The vendor library is external: every call the adapter issues is appended to
a trace, and the status the library returns is given by an environment
function of the trace so far and the call.  `CUDNN_CHECK` aborts the process
on a failure status, `CHECK` aborts on a false condition; the state at the
abort is kept so that one can say what had, and had not, been done by then.
Reading the top of an empty stack and reading the data of a tensor that has no
memory block are undefined behaviour, kept apart from a return and an abort.
-/

set_option linter.unusedVariables false

namespace singa

/-- Shape of a tensor: the extent of each dimension. -/
abbrev Shape := List Nat

/-- Code of a framework numeric type (`DataType`, declared outside this file). -/
abbrev DataType := Nat

/-- Code of a library numeric type (`cudnnDataType_t`). -/
abbrev CudnnDataType := Nat

/-- Library descriptor handle (`cudnnTensorDescriptor_t`, `cudnnLRNDescriptor_t`). -/
abbrev Handle := Nat

/-- Identity of a device memory block (`Blob*`). -/
abbrev Blob := Nat

/-- Modelled from the spec: the device-bound tensor abstraction (shape,
data type, device, raw buffer).  The class `Tensor` is declared outside this
file; its numeric content lives in the blob and is owned by the library. -/
structure Tensor where
  shape : Shape
  data_type : DataType
  device : Nat
  blob : Option Blob
  deriving DecidableEq, Repr

/-- Modelled from the spec: the default-constructed (empty) tensor, `Tensor dx;`:
no dimensions and no memory block. -/
def Tensor.empty : Tensor := ⟨[], 0, 0, none⟩

/-- The LRN mode of the library; the adapter only uses one. -/
inductive LRNMode
  | CUDNN_LRN_CROSS_CHANNEL_DIM1
  deriving DecidableEq, Repr

/-- The tensor layout passed to `cudnnSetTensor4dDescriptor`. -/
inductive TensorFormat
  | CUDNN_TENSOR_NCHW
  deriving DecidableEq, Repr

/-- The library entry points the adapter calls, with the arguments it passes.
A descriptor argument is `none` when the member was never written; the extents
are `int`, the window size is `unsigned`, and a data argument is the memory
block of a tensor. -/
inductive LibCall
  | cudnnCreateTensorDescriptor
  | cudnnSetTensor4dDescriptor (desc : Option Handle) (format : TensorFormat)
      (dataType : CudnnDataType) (n c h w : Int)
  | cudnnCreateLRNDescriptor
  | cudnnSetLRNDescriptor (desc : Option Handle) (lrnN : Nat) (lrnAlpha lrnBeta lrnK : Rat)
  | cudnnLRNCrossChannelForward (normDesc : Option Handle) (lrnMode : Option LRNMode)
      (alpha : Rat) (xDesc : Option Handle) (x : Blob)
      (beta : Rat) (yDesc : Option Handle) (y : Blob)
  | cudnnLRNCrossChannelBackward (normDesc : Option Handle) (lrnMode : Option LRNMode)
      (alpha : Rat) (yDesc : Option Handle) (y : Blob)
      (dyDesc : Option Handle) (dy : Blob)
      (xDesc : Option Handle) (x : Blob)
      (beta : Rat) (dxDesc : Option Handle) (dx : Blob)
  | cudnnDestroyLRNDescriptor (desc : Option Handle)
  | cudnnDestroyTensorDescriptor (desc : Option Handle)
  deriving DecidableEq, Repr

/-- What the adapter does to the outside: library calls and log lines. -/
inductive Event
  | call (c : LibCall)
  | logError (msg : String)
  deriving DecidableEq, Repr

/-- The parts the adapter takes from outside this file: the status of each
library call (`true` for `CUDNN_STATUS_SUCCESS`), as a function of the events
so far and the call; the phase bit `kTrain`; and `GetCudnnDataType`, the
conversion of a numeric type code (a type the library does not support is
refused by the library call that receives it). -/
structure Env where
  lib : List Event → LibCall → Bool
  kTrain : Int
  GetCudnnDataType : DataType → CudnnDataType

/-- The members of a `CudnnLRN` object, with the trace of events and the next
free memory block of the device riding along. -/
structure State where
  has_init_cudnn_ : Bool
  mode_ : Option LRNMode
  shape_desc_ : Option Handle
  lrn_desc_ : Option Handle
  local_size_ : Int
  alpha_ : Rat
  beta_ : Rat
  k_ : Rat
  buf_ : List Tensor
  trace : List Event
  next_blob : Blob
  deriving DecidableEq, Repr

/-- Why the process was aborted. -/
inductive Fatal
  | check
  | cudnn
  deriving DecidableEq, Repr

/-- The two ways the code runs into undefined behaviour: `top()` or `pop()` on
an empty `std::stack`, and `->data()` through the null block pointer of a tensor
without memory. -/
inductive UB
  | emptyStack
  | nullBlock
  deriving DecidableEq, Repr

/-- Result of running a member function: it returns `val` in state `s`, or the
process aborts in state `s`, or the behaviour is undefined. -/
inductive Outcome (α : Type)
  | ok (val : α) (s : State)
  | fatal (why : Fatal) (s : State)
  | undefined (why : UB)
  deriving DecidableEq, Repr

/-- Sequencing: the rest of the function body runs only after a normal return. -/
def Outcome.bind {α β : Type} (o : Outcome α) (f : α → State → Outcome β) : Outcome β :=
  match o with
  | .ok v s => f v s
  | .fatal w s => .fatal w s
  | .undefined u => .undefined u

/-- Conversion of a `size_t` extent to an `int` argument: the value modulo
`2^32`, read as a signed 32-bit number. -/
def sizeToInt (v : Nat) : Int :=
  if v % 2 ^ 32 < 2 ^ 31 then ((v % 2 ^ 32 : Nat) : Int)
  else ((v % 2 ^ 32 : Nat) : Int) - 2 ^ 32

/-- Conversion of an `int` to an `unsigned` argument: the value modulo `2^32`. -/
def intToUnsigned (i : Int) : Nat := (i % 2 ^ 32).toNat

/-- Reading `blob->data()` (or `mutable_data()`): the memory block of the tensor,
undefined behaviour through a null block pointer. -/
def data (b : Option Blob) (s : State) : Outcome Blob :=
  match b with
  | some p => .ok p s
  | none => .undefined .nullBlock

/-- Modelled from the spec: `CHECK(cond)`, declared outside this file; a false
condition is a fatal, process-terminating error. -/
def CHECK (cond : Bool) (s : State) : Outcome Unit :=
  if cond then .ok () s else .fatal .check s

/-- Modelled from the spec: `CUDNN_CHECK(call)`, declared outside this file;
the call is issued, and a failure return code is fatal. -/
def CUDNN_CHECK (env : Env) (c : LibCall) (s : State) : Outcome Unit :=
  if env.lib s.trace c then .ok () { s with trace := s.trace ++ [.call c] }
  else .fatal .cudnn { s with trace := s.trace ++ [.call c] }

/-- A `cudnnCreate*Descriptor` call under `CUDNN_CHECK`: on success the library
hands out a new handle, identified by the position of the call in the trace. -/
def cudnnCreate (env : Env) (c : LibCall) (s : State) : Outcome Handle :=
  (CUDNN_CHECK env c s).bind fun _ s1 => .ok s.trace.length s1

/-- Modelled from the spec: `Tensor out; out.ResetLike(t)` gives a tensor of the
shape, numeric type and device of `t`, with a memory block of its own. -/
def ResetLike (t : Tensor) (s : State) : Outcome Tensor :=
  .ok { shape := t.shape, data_type := t.data_type, device := t.device,
        blob := some s.next_blob }
      { s with next_blob := s.next_blob + 1 }

/-- Destructor `CudnnLRN::~CudnnLRN` (lines 26-31). -/
def destroy (env : Env) (s : State) : Outcome Unit :=
  if s.has_init_cudnn_ then
    (CUDNN_CHECK env (.cudnnDestroyLRNDescriptor s.lrn_desc_) s).bind fun _ s1 =>
    CUDNN_CHECK env (.cudnnDestroyTensorDescriptor s1.shape_desc_) s1
  else .ok () s

/-- Member function `CudnnLRN::InitCudnn` (lines 32-51). -/
def InitCudnn (env : Env) (shape : Shape) (dtype : DataType) (s : State) : Outcome Unit :=
  (CHECK (!s.has_init_cudnn_) s).bind fun _ s1 =>
  let s2 := { s1 with mode_ := some .CUDNN_LRN_CROSS_CHANNEL_DIM1 }
  (cudnnCreate env .cudnnCreateTensorDescriptor s2).bind fun h s3 =>
  let s4 := { s3 with shape_desc_ := some h }
  (CHECK (shape.length == 4) s4).bind fun _ s5 =>
  (CUDNN_CHECK env (.cudnnSetTensor4dDescriptor s5.shape_desc_ .CUDNN_TENSOR_NCHW
      (env.GetCudnnDataType dtype)
      (sizeToInt (shape.getD 0 0)) (sizeToInt (shape.getD 1 0))
      (sizeToInt (shape.getD 2 0)) (sizeToInt (shape.getD 3 0))) s5).bind fun _ s6 =>
  (cudnnCreate env .cudnnCreateLRNDescriptor s6).bind fun h2 s7 =>
  let s8 := { s7 with lrn_desc_ := some h2 }
  (CUDNN_CHECK env (.cudnnSetLRNDescriptor s8.lrn_desc_ (intToUnsigned s8.local_size_)
      s8.alpha_ s8.beta_ s8.k_) s8).bind fun _ s9 =>
  .ok () { s9 with has_init_cudnn_ := true }

/-- Member function `CudnnLRN::Forward` (lines 52-76).  The closure handed to
`Exec` runs on the device of `output`: it reads the data of the two blocks and
makes the one library call. -/
def Forward (env : Env) (flag : Int) (input : Tensor) (s : State) : Outcome Tensor :=
  let shape := input.shape
  let dtype := input.data_type
  (if !s.has_init_cudnn_ then InitCudnn env shape dtype s else .ok () s).bind fun _ s1 =>
  (ResetLike input s1).bind fun output s2 =>
  (data input.blob s2).bind fun inData s2a =>
  (data output.blob s2a).bind fun outData s2b =>
  (CUDNN_CHECK env (.cudnnLRNCrossChannelForward s2b.lrn_desc_ s2b.mode_ 1
      s2b.shape_desc_ inData 0 s2b.shape_desc_ outData) s2b).bind fun _ s3 =>
  let s4 := { s3 with buf_ := input :: s3.buf_ }
  let s5 := { s4 with buf_ := output :: s4.buf_ }
  .ok output s5

/-- Lines 82-85 of `CudnnLRN::Backward`: `output = buf_.top(); buf_.pop();
input = buf_.top(); buf_.pop();`.  The result is `(output, input)`. -/
def popActivations (s : State) : Outcome (Tensor × Tensor) :=
  match s.buf_ with
  | [] => .undefined .emptyStack
  | output :: rest =>
    match rest with
    | [] => .undefined .emptyStack
    | input :: rest2 => .ok (output, input) { s with buf_ := rest2 }

/-- Member function `CudnnLRN::Backward` (lines 78-111).  In training the closure
handed to `Exec` reads the data of the four blocks and makes the one library
call. -/
def Backward (env : Env) (flag : Int) (grad : Tensor) (s : State) :
    Outcome (Tensor × List Tensor) :=
  let param_grad : List Tensor := []
  let dx := Tensor.empty
  (popActivations s).bind fun p s1 =>
  let output := p.1
  let input := p.2
  if (Int.land flag env.kTrain) = env.kTrain then
    (ResetLike grad s1).bind fun dx s2 =>
    (data output.blob s2).bind fun yData s2a =>
    (data grad.blob s2a).bind fun dyData s2b =>
    (data input.blob s2b).bind fun xData s2c =>
    (data dx.blob s2c).bind fun dxData s2d =>
    (CUDNN_CHECK env (.cudnnLRNCrossChannelBackward s2d.lrn_desc_ s2d.mode_ 1
        s2d.shape_desc_ yData s2d.shape_desc_ dyData
        s2d.shape_desc_ xData 0 s2d.shape_desc_ dxData) s2d).bind fun _ s3 =>
    .ok (dx, param_grad) s3
  else
    .ok (dx, param_grad)
      { s1 with trace := s1.trace ++ [.logError "Do not call backward for evaluation phase"] }

/-- Modelled from the spec: a newly constructed adapter, with the normalization
parameters fixed at construction: descriptors not initialized, nothing
buffered.  The constructor is declared outside this file. -/
def fresh (local_size : Int) (alpha beta k : Rat) : State :=
  { has_init_cudnn_ := false, mode_ := none, shape_desc_ := none, lrn_desc_ := none,
    local_size_ := local_size, alpha_ := alpha, beta_ := beta, k_ := k,
    buf_ := [], trace := [], next_blob := 0 }

/-- A library all of whose calls return success. -/
def LibSucceeds (env : Env) : Prop := ∀ t c, env.lib t c = true

/-- An environment in which every library call succeeds, with phase bit `kt`. -/
def okEnv (kt : Int) : Env := { lib := fun _ _ => true, kTrain := kt, GetCudnnDataType := id }


/-- A call made on the adapter by its owner. -/
inductive Call
  | forward (flag : Int) (input : Tensor)
  | backward (flag : Int) (grad : Tensor)
  deriving DecidableEq, Repr

/-- One call on the adapter, its result dropped. -/
def step (env : Env) (c : Call) (s : State) : Outcome Unit :=
  match c with
  | .forward flag input => (Forward env flag input s).bind fun _ s' => .ok () s'
  | .backward flag grad => (Backward env flag grad s).bind fun _ s' => .ok () s'

/-- The calls of a list, one after the other; the first that does not return
ends the run. -/
def run (env : Env) (cs : List Call) (s : State) : Outcome Unit :=
  match cs with
  | [] => .ok () s
  | c :: rest => (step env c s).bind fun _ s' => run env rest s'

/-- Successive `Forward` calls on the given (flag, input) pairs; the outputs are
collected in call order. -/
def runForward (env : Env) (xs : List (Int × Tensor)) (s : State) : Outcome (List Tensor) :=
  match xs with
  | [] => .ok [] s
  | x :: rest =>
    (Forward env x.1 x.2 s).bind fun y s' =>
    (runForward env rest s').bind fun ys s2 => .ok (y :: ys) s2

/-- Successive `Backward` calls on the given (flag, gradient) pairs; the results
are collected in call order. -/
def runBackward (env : Env) (gs : List (Int × Tensor)) (s : State) :
    Outcome (List (Tensor × List Tensor)) :=
  match gs with
  | [] => .ok [] s
  | g :: rest =>
    (Backward env g.1 g.2 s).bind fun r s' =>
    (runBackward env rest s').bind fun rs s2 => .ok (r :: rs) s2

/-- Number of `Forward` calls in a list of calls. -/
def countForward (cs : List Call) : Nat :=
  (cs.filter fun c => match c with | .forward _ _ => true | .backward _ _ => false).length

/-- Number of `Backward` calls in a list of calls. -/
def countBackward (cs : List Call) : Nat :=
  (cs.filter fun c => match c with | .forward _ _ => false | .backward _ _ => true).length

/-- The flag has the training bit set: `(flag & kTrain) == kTrain`. -/
def isTrain (env : Env) (flag : Int) : Prop := Int.land flag env.kTrain = env.kTrain

instance (env : Env) (flag : Int) : Decidable (isTrain env flag) := by
  unfold isTrain; infer_instance

/-- The four library calls of a successful `InitCudnn` from state `s`. -/
def initCalls (env : Env) (shape : Shape) (dtype : DataType) (s : State) : List Event :=
  [ .call .cudnnCreateTensorDescriptor,
    .call (.cudnnSetTensor4dDescriptor (some s.trace.length) .CUDNN_TENSOR_NCHW
      (env.GetCudnnDataType dtype)
      (sizeToInt (shape.getD 0 0)) (sizeToInt (shape.getD 1 0))
      (sizeToInt (shape.getD 2 0)) (sizeToInt (shape.getD 3 0))),
    .call .cudnnCreateLRNDescriptor,
    .call (.cudnnSetLRNDescriptor (some (s.trace.length + 2)) (intToUnsigned s.local_size_)
      s.alpha_ s.beta_ s.k_) ]

/-- The state a successful `InitCudnn` leaves behind. -/
def initDone (env : Env) (shape : Shape) (dtype : DataType) (s : State) : State :=
  { s with
    has_init_cudnn_ := true
    mode_ := some .CUDNN_LRN_CROSS_CHANNEL_DIM1
    shape_desc_ := some s.trace.length
    lrn_desc_ := some (s.trace.length + 2)
    trace := s.trace ++ initCalls env shape dtype s }

/-- The library forward call `Forward` dispatches from state `s` (descriptors
already initialized), reading the block `x` and writing the block `y`. -/
def forwardCall (s : State) (x y : Blob) : LibCall :=
  .cudnnLRNCrossChannelForward s.lrn_desc_ s.mode_ 1 s.shape_desc_ x 0 s.shape_desc_ y

/-- The state in which `Forward` dispatches its library call: `s` itself when
the descriptors exist, `initDone` otherwise. -/
def dispatchState (env : Env) (input : Tensor) (s : State) : State :=
  if s.has_init_cudnn_ then s else initDone env input.shape input.data_type s

/-- The tensor `Forward` returns for `input` from dispatch state `s1`. -/
def outputOf (input : Tensor) (s1 : State) : Tensor :=
  { shape := input.shape, data_type := input.data_type, device := input.device,
    blob := some s1.next_blob }

/-- What `Forward` does from the state `s1` in which the descriptors exist: the
data of the input is read, undefined behaviour when the input has no memory
block; the library call is made; the input and the output are pushed. -/
def forwardFrom (env : Env) (input : Tensor) (s1 : State) : Outcome Tensor :=
  match input.blob with
  | none => .undefined .nullBlock
  | some x =>
    if env.lib s1.trace (forwardCall s1 x s1.next_blob) then
      .ok (outputOf input s1)
        { s1 with buf_ := outputOf input s1 :: input :: s1.buf_
                  trace := s1.trace ++ [.call (forwardCall s1 x s1.next_blob)]
                  next_blob := s1.next_blob + 1 }
    else
      .fatal .cudnn
        { s1 with trace := s1.trace ++ [.call (forwardCall s1 x s1.next_blob)]
                  next_blob := s1.next_blob + 1 }

/-- The library backward call `Backward` dispatches from state `s`, reading the
blocks `y` of the popped output, `dy` of the incoming gradient and `x` of the
popped input, and writing the block `dx`. -/
def backwardCall (s : State) (y dy x dx : Blob) : LibCall :=
  .cudnnLRNCrossChannelBackward s.lrn_desc_ s.mode_ 1 s.shape_desc_ y
    s.shape_desc_ dy s.shape_desc_ x 0 s.shape_desc_ dx

/-- The state `Backward` in training leaves behind, whether the library call
succeeded or not: the pair popped, the block of `dx` allocated, the call
recorded. -/
def backwardDone (s : State) (rest : List Tensor) (y dy x : Blob) : State :=
  { s with buf_ := rest, next_blob := s.next_blob + 1,
           trace := s.trace ++ [.call (backwardCall s y dy x s.next_blob)] }

/-- The log line of `Backward` outside training. -/
def evalPhaseLog : Event := .logError "Do not call backward for evaluation phase"

/-- The buffer that holds the given (output, input) pairs, topmost first. -/
def stackOf (ps : List (Tensor × Tensor)) : List Tensor :=
  match ps with
  | [] => []
  | p :: rest => p.1 :: p.2 :: stackOf rest

/-- The event is a call of the library forward primitive. -/
def isForwardCall (e : Event) : Bool :=
  match e with
  | .call (.cudnnLRNCrossChannelForward _ _ _ _ _ _ _ _) => true
  | _ => false

/-- The descriptor argument `d` is a handle that the library handed out in a
successful create call `c` recorded in the trace `t`. -/
def created (env : Env) (t : List Event) (c : LibCall) (d : Option Handle) : Prop :=
  ∃ h, d = some h ∧ t[h]? = some (.call c) ∧ env.lib (t.take h) c = true

/-- The descriptors a forward or backward library call receives were created in
the trace `t` before it; nothing is asked of the other calls. -/
def usesCreated (env : Env) (t : List Event) (c : LibCall) : Prop :=
  match c with
  | .cudnnLRNCrossChannelForward nd _ _ xd _ _ yd _ =>
    created env t .cudnnCreateLRNDescriptor nd ∧
    created env t .cudnnCreateTensorDescriptor xd ∧
    created env t .cudnnCreateTensorDescriptor yd
  | .cudnnLRNCrossChannelBackward nd _ _ yd _ dyd _ xd _ _ dxd _ =>
    created env t .cudnnCreateLRNDescriptor nd ∧
    created env t .cudnnCreateTensorDescriptor yd ∧
    created env t .cudnnCreateTensorDescriptor dyd ∧
    created env t .cudnnCreateTensorDescriptor xd ∧
    created env t .cudnnCreateTensorDescriptor dxd
  | _ => True

/-- Every library call of the trace received descriptors created before it. -/
def Dispatched (env : Env) (t : List Event) : Prop :=
  ∀ i c, t[i]? = some (.call c) → usesCreated env (t.take i) c

/-- What holds of the adapter between calls: tensors are buffered only once the
descriptors are initialized, the descriptor members of an initialized adapter
are created handles, and every library call so far received created
descriptors. -/
def Inv (env : Env) (s : State) : Prop :=
  (s.buf_ ≠ [] → s.has_init_cudnn_ = true) ∧
  (s.has_init_cudnn_ = true →
    created env s.trace .cudnnCreateLRNDescriptor s.lrn_desc_ ∧
    created env s.trace .cudnnCreateTensorDescriptor s.shape_desc_) ∧
  Dispatched env s.trace

/-- Every buffered tensor has a memory block. -/
def BufHasBlocks (s : State) : Prop := ∀ t ∈ s.buf_, t.blob ≠ none

/-- The tensors a call reads the data of come with a memory block: the input of
a `Forward`, the gradient of a `Backward` in training. -/
def callHasBlock (env : Env) (c : Call) : Prop :=
  match c with
  | .forward _ input => input.blob ≠ none
  | .backward flag grad => isTrain env flag → grad.blob ≠ none

/-! ## Helper lemmas -/


theorem bind_ok {α β : Type} (v : α) (s : State) (f : α → State → Outcome β) :
    (Outcome.ok v s).bind f = f v s := rfl

theorem bind_CHECK {β : Type} (b : Bool) (s : State) (f : Unit → State → Outcome β) :
    (CHECK b s).bind f = if b then f () s else .fatal .check s := by
  unfold CHECK; split <;> rfl

theorem bind_CUDNN_CHECK {β : Type} (env : Env) (c : LibCall) (s : State)
    (f : Unit → State → Outcome β) :
    (CUDNN_CHECK env c s).bind f =
      if env.lib s.trace c then f () { s with trace := s.trace ++ [.call c] }
      else .fatal .cudnn { s with trace := s.trace ++ [.call c] } := by
  unfold CUDNN_CHECK; split <;> rfl

theorem bind_cudnnCreate {β : Type} (env : Env) (c : LibCall) (s : State)
    (f : Handle → State → Outcome β) :
    (cudnnCreate env c s).bind f =
      if env.lib s.trace c then f s.trace.length { s with trace := s.trace ++ [.call c] }
      else .fatal .cudnn { s with trace := s.trace ++ [.call c] } := by
  unfold cudnnCreate CUDNN_CHECK; split <;> rfl

theorem bind_ResetLike {β : Type} (t : Tensor) (s : State) (f : Tensor → State → Outcome β) :
    (ResetLike t s).bind f =
      f { shape := t.shape, data_type := t.data_type, device := t.device,
          blob := some s.next_blob } { s with next_blob := s.next_blob + 1 } := rfl

/-- A returning `InitCudnn` started uninitialized on a 4-dimensional shape, all
four library calls succeeded, and it leaves `initDone`. -/
theorem InitCudnn_eq_ok (env : Env) (shape : Shape) (dtype : DataType) (s s' : State) (u : Unit)
    (h : InitCudnn env shape dtype s = .ok u s') :
    s.has_init_cudnn_ = false ∧ shape.length = 4 ∧ s' = initDone env shape dtype s ∧
    env.lib s.trace .cudnnCreateTensorDescriptor = true ∧
    env.lib (s.trace ++ (initCalls env shape dtype s).take 2) .cudnnCreateLRNDescriptor = true := by
  simp only [InitCudnn, bind_CHECK, bind_CUDNN_CHECK, bind_cudnnCreate] at h
  split_ifs at h with h1 h2 h3 h4 h5 h6
  simp at h
  subst h
  simp at h1 h3
  simp [h1, h3, initDone, initCalls, h2]
  simpa [h3] using h5

theorem data_some (p : Blob) (s : State) : data (some p) s = .ok p s := rfl

theorem bind_undefined {α β : Type} (u : UB) (f : α → State → Outcome β) :
    (Outcome.undefined u : Outcome α).bind f = .undefined u := rfl

theorem bind_fatal {α β : Type} (w : Fatal) (s : State) (f : α → State → Outcome β) :
    (Outcome.fatal w s : Outcome α).bind f = .fatal w s := rfl

theorem InitCudnn_ne_undefined (env : Env) (shape : Shape) (dtype : DataType) (s : State)
    (u : UB) : InitCudnn env shape dtype s ≠ .undefined u := by
  simp only [InitCudnn, bind_CHECK, bind_CUDNN_CHECK, bind_cudnnCreate]
  split_ifs <;> simp

/-- An aborting `InitCudnn` has issued an initial part of its library calls and
nothing else; a failed `CHECK` means the adapter was initialized or the shape
is not 4-dimensional. -/
theorem InitCudnn_eq_fatal (env : Env) (shape : Shape) (dtype : DataType) (s s' : State)
    (w : Fatal) (h : InitCudnn env shape dtype s = .fatal w s') :
    (w = .cudnn ∨ s.has_init_cudnn_ = true ∨ shape.length ≠ 4) ∧
    s'.buf_ = s.buf_ ∧
    ∃ l, s'.trace = s.trace ++ l ∧ l <+: initCalls env shape dtype s := by
  simp only [InitCudnn, bind_CHECK, bind_CUDNN_CHECK, bind_cudnnCreate] at h
  split_ifs at h with h1 h2 h3 h4 h5 h6
  all_goals simp only [Outcome.fatal.injEq, reduceCtorEq] at h
  all_goals obtain ⟨hw, hs⟩ := h
  all_goals subst hw hs
  · exact ⟨Or.inl rfl, rfl, (initCalls env shape dtype s).take 4, by simp [initCalls],
      List.take_prefix _ _⟩
  · exact ⟨Or.inl rfl, rfl, (initCalls env shape dtype s).take 3, by simp [initCalls],
      List.take_prefix _ _⟩
  · exact ⟨Or.inl rfl, rfl, (initCalls env shape dtype s).take 2, by simp [initCalls],
      List.take_prefix _ _⟩
  · simp at h3
    exact ⟨Or.inr (Or.inr h3), rfl, (initCalls env shape dtype s).take 1, by simp [initCalls],
      List.take_prefix _ _⟩
  · exact ⟨Or.inl rfl, rfl, (initCalls env shape dtype s).take 1, by simp [initCalls],
      List.take_prefix _ _⟩
  · simp at h1
    exact ⟨Or.inr (Or.inl h1), rfl, [], by simp, List.nil_prefix⟩

theorem InitCudnn_progress (env : Env) (shape : Shape) (dtype : DataType) (s : State)
    (hl : LibSucceeds env) (hi : s.has_init_cudnn_ = false) (h4 : shape.length = 4) :
    InitCudnn env shape dtype s = .ok () (initDone env shape dtype s) := by
  simp [InitCudnn, bind_CHECK, bind_CUDNN_CHECK, bind_cudnnCreate, hl _ _, hi, h4, initDone,
    initCalls]

theorem forwardFrom_eq (env : Env) (input : Tensor) (s1 : State) :
    ((ResetLike input s1).bind fun output s2 =>
      (data input.blob s2).bind fun inData s2a =>
      (data output.blob s2a).bind fun outData s2b =>
      (CUDNN_CHECK env (.cudnnLRNCrossChannelForward s2b.lrn_desc_ s2b.mode_ 1
          s2b.shape_desc_ inData 0 s2b.shape_desc_ outData) s2b).bind fun _ s3 =>
      .ok output { s3 with buf_ := output :: input :: s3.buf_ }) =
    forwardFrom env input s1 := by
  simp only [bind_ResetLike, forwardFrom]
  cases input.blob with
  | none => rfl
  | some x =>
    simp only [data_some, bind_ok, bind_CUDNN_CHECK, forwardCall, outputOf]

theorem Forward_eq (env : Env) (flag : Int) (input : Tensor) (s : State) :
    Forward env flag input s =
      (if !s.has_init_cudnn_ then InitCudnn env input.shape input.data_type s
        else .ok () s).bind fun _ s1 => forwardFrom env input s1 := by
  unfold Forward
  simp only [← forwardFrom_eq]

theorem forwardFrom_eq_ok (env : Env) (input : Tensor) (s1 : State) (out : Tensor) (s' : State)
    (h : forwardFrom env input s1 = .ok out s') :
    ∃ x, input.blob = some x ∧ out = outputOf input s1 ∧
      s' = { s1 with buf_ := out :: input :: s1.buf_
                     trace := s1.trace ++ [.call (forwardCall s1 x s1.next_blob)]
                     next_blob := s1.next_blob + 1 } := by
  unfold forwardFrom at h
  cases hb : input.blob with
  | none => rw [hb] at h; cases h
  | some x =>
    rw [hb] at h
    simp only at h
    split_ifs at h
    simp only [Outcome.ok.injEq] at h
    obtain ⟨h1, h2⟩ := h
    subst h1
    exact ⟨x, rfl, rfl, h2.symm⟩

theorem forwardFrom_eq_fatal (env : Env) (input : Tensor) (s1 : State) (w : Fatal) (s' : State)
    (h : forwardFrom env input s1 = .fatal w s') :
    w = .cudnn ∧ ∃ x, input.blob = some x ∧
      s' = { s1 with trace := s1.trace ++ [.call (forwardCall s1 x s1.next_blob)]
                     next_blob := s1.next_blob + 1 } := by
  unfold forwardFrom at h
  cases hb : input.blob with
  | none => rw [hb] at h; cases h
  | some x =>
    rw [hb] at h
    simp only at h
    split_ifs at h
    simp only [Outcome.fatal.injEq] at h
    exact ⟨h.1.symm, x, rfl, h.2.symm⟩

theorem forwardFrom_eq_undefined (env : Env) (input : Tensor) (s1 : State) (u : UB)
    (h : forwardFrom env input s1 = .undefined u) : u = .nullBlock ∧ input.blob = none := by
  unfold forwardFrom at h
  cases hb : input.blob with
  | none => rw [hb] at h; simp only [Outcome.undefined.injEq] at h; exact ⟨h.symm, rfl⟩
  | some x =>
    rw [hb] at h
    simp only at h
    split_ifs at h

theorem forwardFrom_progress (env : Env) (input : Tensor) (s1 : State) (x : Blob)
    (hl : LibSucceeds env) (hb : input.blob = some x) :
    ∃ out s', forwardFrom env input s1 = .ok out s' := by
  unfold forwardFrom
  rw [hb]
  simp only [hl _ _, if_true]
  exact ⟨_, _, rfl⟩

/-- The first part of `Forward`, the lazy initialization, either aborts inside
`InitCudnn` or returns in `dispatchState`. -/
theorem Forward_init_cases (env : Env) (input : Tensor) (s : State) :
    ((if !s.has_init_cudnn_ then InitCudnn env input.shape input.data_type s
        else .ok () s) = .ok () (dispatchState env input s) ∧
      (s.has_init_cudnn_ = false → input.shape.length = 4 ∧
        env.lib s.trace .cudnnCreateTensorDescriptor = true ∧
        env.lib (s.trace ++ (initCalls env input.shape input.data_type s).take 2)
          .cudnnCreateLRNDescriptor = true)) ∨
    (s.has_init_cudnn_ = false ∧
      ∃ w s', (if !s.has_init_cudnn_ then InitCudnn env input.shape input.data_type s
        else .ok () s) = .fatal w s' ∧
        InitCudnn env input.shape input.data_type s = .fatal w s') := by
  cases hi : s.has_init_cudnn_
  · simp only [Bool.not_false, if_true]
    cases hI : InitCudnn env input.shape input.data_type s with
    | ok u s1 =>
      obtain ⟨_, h4, hs1, hl1, hl2⟩ := InitCudnn_eq_ok _ _ _ _ _ _ hI
      left
      refine ⟨?_, fun _ => ⟨h4, hl1, hl2⟩⟩
      simp [dispatchState, hi, hs1]
    | fatal w s1 => right; exact ⟨trivial, w, s1, rfl, rfl⟩
    | undefined u => exact absurd hI (InitCudnn_ne_undefined _ _ _ _ _)
  · left
    refine ⟨?_, fun hc => by cases hc⟩
    simp [dispatchState, hi]

/-- A returning `Forward` dispatched its library call from `dispatchState`,
returned `outputOf`, and pushed the input, then the output; the input has a
memory block. -/
theorem Forward_eq_ok (env : Env) (flag : Int) (input : Tensor) (s : State) (out : Tensor)
    (s' : State) (h : Forward env flag input s = .ok out s') :
    (s.has_init_cudnn_ = false → input.shape.length = 4 ∧
      env.lib s.trace .cudnnCreateTensorDescriptor = true ∧
      env.lib (s.trace ++ (initCalls env input.shape input.data_type s).take 2)
        .cudnnCreateLRNDescriptor = true) ∧
    out = outputOf input (dispatchState env input s) ∧
    ∃ x, input.blob = some x ∧
    s' = { dispatchState env input s with
           buf_ := out :: input :: s.buf_
           trace := (dispatchState env input s).trace ++
             [.call (forwardCall (dispatchState env input s) x
               (dispatchState env input s).next_blob)]
           next_blob := (dispatchState env input s).next_blob + 1 } := by
  rw [Forward_eq] at h
  rcases Forward_init_cases env input s with ⟨hpre, hfacts⟩ | ⟨_, w, s1, hpre, _⟩
  · rw [hpre, bind_ok] at h
    obtain ⟨x, hb, ho, hs⟩ := forwardFrom_eq_ok env input _ out s' h
    refine ⟨hfacts, ho, x, hb, ?_⟩
    rw [hs]
    have hbuf : (dispatchState env input s).buf_ = s.buf_ := by
      unfold dispatchState; split <;> simp [initDone]
    rw [hbuf]
  · rw [hpre, bind_fatal] at h; cases h

theorem Forward_eq_undefined (env : Env) (flag : Int) (input : Tensor) (s : State) (u : UB)
    (h : Forward env flag input s = .undefined u) : u = .nullBlock ∧ input.blob = none := by
  rw [Forward_eq] at h
  rcases Forward_init_cases env input s with ⟨hpre, _⟩ | ⟨_, w, s1, hpre, _⟩
  · rw [hpre, bind_ok] at h
    exact forwardFrom_eq_undefined env input _ u h
  · rw [hpre, bind_fatal] at h; cases h

theorem Forward_progress (env : Env) (flag : Int) (input : Tensor) (s : State) (x : Blob)
    (hl : LibSucceeds env) (h : s.has_init_cudnn_ = true ∨ input.shape.length = 4)
    (hb : input.blob = some x) :
    ∃ out s', Forward env flag input s = .ok out s' := by
  rw [Forward_eq]
  cases hi : s.has_init_cudnn_
  · have h4 : input.shape.length = 4 := by
      rcases h with h | h
      · rw [hi] at h; cases h
      · exact h
    simp only [Bool.not_false, if_true, InitCudnn_progress env _ _ s hl hi h4, bind_ok]
    exact forwardFrom_progress env input _ x hl hb
  · simp only [Bool.not_true, Bool.false_eq_true, if_false, bind_ok]
    exact forwardFrom_progress env input _ x hl hb

/-- An aborting `Forward` either aborted inside `InitCudnn`, or its library
forward call, dispatched as in the returning case, reported a failure.  The
buffer is untouched. -/
theorem Forward_eq_fatal (env : Env) (flag : Int) (input : Tensor) (s s' : State) (w : Fatal)
    (h : Forward env flag input s = .fatal w s') :
    (w = .cudnn ∨ (s.has_init_cudnn_ = false ∧ input.shape.length ≠ 4)) ∧
    s'.buf_ = s.buf_ ∧
    ((s.has_init_cudnn_ = false ∧
        ∃ l, s'.trace = s.trace ++ l ∧ l <+: initCalls env input.shape input.data_type s) ∨
     ((s.has_init_cudnn_ = false →
        env.lib s.trace .cudnnCreateTensorDescriptor = true ∧
        env.lib (s.trace ++ (initCalls env input.shape input.data_type s).take 2)
          .cudnnCreateLRNDescriptor = true) ∧
      ∃ x, input.blob = some x ∧
      s'.trace = (dispatchState env input s).trace ++
        [.call (forwardCall (dispatchState env input s) x
          (dispatchState env input s).next_blob)])) := by
  rw [Forward_eq] at h
  have hbuf : (dispatchState env input s).buf_ = s.buf_ := by
    unfold dispatchState; split <;> simp [initDone]
  rcases Forward_init_cases env input s with ⟨hpre, hfacts⟩ | ⟨hi, w1, s1, hpre, hI⟩
  · rw [hpre, bind_ok] at h
    obtain ⟨hw, x, hb, hs⟩ := forwardFrom_eq_fatal env input _ w s' h
    refine ⟨Or.inl hw, ?_, Or.inr ⟨fun hc => (hfacts hc).2, x, hb, ?_⟩⟩
    · rw [hs]; exact hbuf
    · rw [hs]
  · rw [hpre, bind_fatal] at h
    simp only [Outcome.fatal.injEq] at h
    obtain ⟨h1, h2⟩ := h
    subst h1 h2
    obtain ⟨hw, hb, l, hl, hp⟩ := InitCudnn_eq_fatal _ _ _ _ _ _ hI
    refine ⟨?_, hb, Or.inl ⟨hi, l, hl, hp⟩⟩
    rcases hw with hw | hw | hw
    · exact Or.inl hw
    · rw [hi] at hw; cases hw
    · exact Or.inr ⟨hi, hw⟩

theorem popActivations_cons (s : State) (output input : Tensor) (rest : List Tensor)
    (h : s.buf_ = output :: input :: rest) :
    popActivations s = .ok (output, input) { s with buf_ := rest } := by
  simp [popActivations, h]

theorem Backward_short (env : Env) (flag : Int) (grad : Tensor) (s : State)
    (h : s.buf_.length < 2) : Backward env flag grad s = .undefined .emptyStack := by
  unfold Backward popActivations
  match hb : s.buf_ with
  | [] => simp [Outcome.bind]
  | [_] => simp [Outcome.bind]
  | output :: input :: rest => rw [hb] at h; simp only [List.length_cons] at h; omega

/-- The outcomes of `Backward` on a buffer with at least two tensors: outside
training it logs and returns the empty tensor; in training it has undefined
behaviour when the popped output, the gradient or the popped input has no
memory block, and otherwise makes the library call and returns or aborts
according to its status. -/
theorem Backward_cases (env : Env) (flag : Int) (grad : Tensor) (s : State)
    (output input : Tensor) (rest : List Tensor) (h : s.buf_ = output :: input :: rest) :
    (¬ isTrain env flag ∧
      Backward env flag grad s =
        .ok (Tensor.empty, []) { s with buf_ := rest, trace := s.trace ++ [evalPhaseLog] }) ∨
    (isTrain env flag ∧ (output.blob = none ∨ grad.blob = none ∨ input.blob = none) ∧
      Backward env flag grad s = .undefined .nullBlock) ∨
    (isTrain env flag ∧ ∃ y dy x, output.blob = some y ∧ grad.blob = some dy ∧
      input.blob = some x ∧
      ((env.lib s.trace (backwardCall s y dy x s.next_blob) = true ∧
          Backward env flag grad s =
            .ok (outputOf grad s, []) (backwardDone s rest y dy x)) ∨
       (env.lib s.trace (backwardCall s y dy x s.next_blob) = false ∧
          Backward env flag grad s = .fatal .cudnn (backwardDone s rest y dy x)))) := by
  unfold Backward
  rw [popActivations_cons s output input rest h]
  simp only [bind_ok, bind_ResetLike]
  by_cases ht : isTrain env flag
  · right
    have ht' : Int.land flag env.kTrain = env.kTrain := ht
    simp only [ht', if_true]
    cases hy : output.blob with
    | none => left; exact ⟨ht, Or.inl rfl, rfl⟩
    | some y =>
      cases hdy : grad.blob with
      | none => left; exact ⟨ht, Or.inr (Or.inl rfl), rfl⟩
      | some dy =>
        cases hx : input.blob with
        | none => left; exact ⟨ht, Or.inr (Or.inr rfl), rfl⟩
        | some x =>
          right
          refine ⟨ht, y, dy, x, rfl, rfl, rfl, ?_⟩
          simp only [data_some, bind_ok, bind_CUDNN_CHECK]
          by_cases hl : env.lib s.trace (backwardCall s y dy x s.next_blob) = true
          · left
            refine ⟨hl, ?_⟩
            have hl' : env.lib s.trace (LibCall.cudnnLRNCrossChannelBackward s.lrn_desc_ s.mode_ 1
                s.shape_desc_ y s.shape_desc_ dy s.shape_desc_ x 0 s.shape_desc_
                s.next_blob) = true := hl
            simp only [hl', if_true]
            rfl
          · right
            have hl2 : env.lib s.trace (backwardCall s y dy x s.next_blob) = false := by
              simpa using hl
            refine ⟨hl2, ?_⟩
            have hl' : env.lib s.trace (LibCall.cudnnLRNCrossChannelBackward s.lrn_desc_ s.mode_ 1
                s.shape_desc_ y s.shape_desc_ dy s.shape_desc_ x 0 s.shape_desc_
                s.next_blob) = false := hl2
            simp only [hl', Bool.false_eq_true, if_false]
            rfl
  · left
    have ht' : ¬ Int.land flag env.kTrain = env.kTrain := ht
    simp only [ht', if_false]
    exact ⟨ht, rfl⟩

theorem Backward_ok_buf (env : Env) (flag : Int) (grad : Tensor) (s : State)
    (r : Tensor × List Tensor) (s' : State) (h : Backward env flag grad s = .ok r s') :
    ∃ output input, s.buf_ = output :: input :: s'.buf_ ∧ r.2 = [] ∧
      s'.has_init_cudnn_ = s.has_init_cudnn_ ∧
      (isTrain env flag → r.1 = outputOf grad s) ∧ (¬ isTrain env flag → r.1 = Tensor.empty) := by
  match hb : s.buf_ with
  | [] => rw [Backward_short env flag grad s (by simp [hb])] at h; cases h
  | [_] => rw [Backward_short env flag grad s (by simp [hb])] at h; cases h
  | output :: input :: rest =>
    rcases Backward_cases env flag grad s output input rest hb with
      ⟨hn, hB⟩ | ⟨_, _, hB⟩ | ⟨ht, y, dy, x, _, _, _, ⟨_, hB⟩ | ⟨_, hB⟩⟩
    · rw [hB] at h
      simp only [Outcome.ok.injEq] at h
      obtain ⟨hr, hs⟩ := h
      subst hr hs
      exact ⟨output, input, rfl, rfl, rfl, fun ht => absurd ht hn, fun _ => rfl⟩
    · rw [hB] at h; cases h
    · rw [hB] at h
      simp only [Outcome.ok.injEq] at h
      obtain ⟨hr, hs⟩ := h
      subst hr hs
      exact ⟨output, input, rfl, rfl, rfl, fun _ => rfl, fun hn => absurd ht hn⟩
    · rw [hB] at h; cases h

/-- Undefined behaviour in `Backward` is a buffer with fewer than two tensors,
or, in training on a buffer with two, a tensor without a memory block among the
popped output, the gradient and the popped input. -/
theorem Backward_eq_undefined (env : Env) (flag : Int) (grad : Tensor) (s : State) (u : UB)
    (h : Backward env flag grad s = .undefined u) :
    (u = .emptyStack ∧ s.buf_.length < 2) ∨
    (u = .nullBlock ∧ isTrain env flag ∧ ∃ output input rest,
      s.buf_ = output :: input :: rest ∧
      (output.blob = none ∨ grad.blob = none ∨ input.blob = none)) := by
  match hb : s.buf_ with
  | [] =>
    rw [Backward_short env flag grad s (by simp [hb])] at h
    simp only [Outcome.undefined.injEq] at h
    exact Or.inl ⟨h.symm, by simp⟩
  | [_] =>
    rw [Backward_short env flag grad s (by simp [hb])] at h
    simp only [Outcome.undefined.injEq] at h
    exact Or.inl ⟨h.symm, by simp⟩
  | output :: input :: rest =>
    rcases Backward_cases env flag grad s output input rest hb with
      ⟨hn, hB⟩ | ⟨ht, hnone, hB⟩ | ⟨ht, y, dy, x, _, _, _, ⟨_, hB⟩ | ⟨_, hB⟩⟩
    · rw [hB] at h; cases h
    · rw [hB] at h
      simp only [Outcome.undefined.injEq] at h
      exact Or.inr ⟨h.symm, ht, output, input, rest, rfl, hnone⟩
    · rw [hB] at h; cases h
    · rw [hB] at h; cases h

theorem Backward_eq_fatal (env : Env) (flag : Int) (grad : Tensor) (s s' : State) (w : Fatal)
    (h : Backward env flag grad s = .fatal w s') :
    w = .cudnn ∧ isTrain env flag ∧ ∃ output input rest y dy x,
      s.buf_ = output :: input :: rest ∧ output.blob = some y ∧ grad.blob = some dy ∧
      input.blob = some x ∧ s' = backwardDone s rest y dy x := by
  match hb : s.buf_ with
  | [] => rw [Backward_short env flag grad s (by simp [hb])] at h; cases h
  | [_] => rw [Backward_short env flag grad s (by simp [hb])] at h; cases h
  | output :: input :: rest =>
    rcases Backward_cases env flag grad s output input rest hb with
      ⟨hn, hB⟩ | ⟨ht, hnone, hB⟩ | ⟨ht, y, dy, x, hy, hdy, hx, ⟨_, hB⟩ | ⟨_, hB⟩⟩
    · rw [hB] at h; cases h
    · rw [hB] at h; cases h
    · rw [hB] at h; cases h
    · rw [hB] at h
      simp only [Outcome.fatal.injEq] at h
      exact ⟨h.1.symm, ht, output, input, rest, y, dy, x, rfl, hy, hdy, hx, h.2.symm⟩

theorem Backward_progress (env : Env) (flag : Int) (grad : Tensor) (s : State)
    (hlen : 2 ≤ s.buf_.length)
    (hl : (LibSucceeds env ∧ grad.blob ≠ none ∧ BufHasBlocks s) ∨ ¬ isTrain env flag) :
    ∃ dx s', Backward env flag grad s = .ok (dx, []) s' ∧
      (isTrain env flag → dx.shape = grad.shape) := by
  match hb : s.buf_ with
  | [] => rw [hb] at hlen; simp at hlen
  | [_] => rw [hb] at hlen; simp at hlen
  | output :: input :: rest =>
    rcases Backward_cases env flag grad s output input rest hb with
      ⟨hn, hB⟩ | ⟨ht, hnone, hB⟩ | ⟨ht, y, dy, x, _, _, _, ⟨_, hB⟩ | ⟨hf, hB⟩⟩
    · exact ⟨_, _, hB, fun h => absurd h hn⟩
    · rcases hl with ⟨_, hg, hbuf⟩ | hl
      · exfalso
        rcases hnone with h1 | h1 | h1
        · exact hbuf output (by simp [hb]) h1
        · exact hg h1
        · exact hbuf input (by simp [hb]) h1
      · exact absurd ht hl
    · exact ⟨_, _, hB, fun _ => rfl⟩
    · rcases hl with ⟨hlib, _, _⟩ | hl
      · rw [hlib _ _] at hf; cases hf
      · exact absurd ht hl

theorem countForward_cons_forward (flag : Int) (x : Tensor) (cs : List Call) :
    countForward (.forward flag x :: cs) = countForward cs + 1 := by
  simp [countForward]

theorem countForward_cons_backward (flag : Int) (x : Tensor) (cs : List Call) :
    countForward (.backward flag x :: cs) = countForward cs := by
  simp [countForward]

theorem countBackward_cons_forward (flag : Int) (x : Tensor) (cs : List Call) :
    countBackward (.forward flag x :: cs) = countBackward cs := by
  simp [countBackward]

theorem countBackward_cons_backward (flag : Int) (x : Tensor) (cs : List Call) :
    countBackward (.backward flag x :: cs) = countBackward cs + 1 := by
  simp [countBackward]

theorem step_forward_ok (env : Env) (flag : Int) (x : Tensor) (s s' : State) (u : Unit)
    (h : step env (.forward flag x) s = .ok u s') : ∃ out, Forward env flag x s = .ok out s' := by
  simp only [step] at h
  cases hF : Forward env flag x s with
  | ok out s1 => rw [hF] at h; simp only [bind_ok, Outcome.ok.injEq] at h; exact ⟨out, by rw [h.2]⟩
  | fatal w s1 => rw [hF] at h; simp [Outcome.bind] at h
  | undefined u => rw [hF] at h; simp [Outcome.bind] at h

theorem step_backward_ok (env : Env) (flag : Int) (g : Tensor) (s s' : State) (u : Unit)
    (h : step env (.backward flag g) s = .ok u s') : ∃ r, Backward env flag g s = .ok r s' := by
  simp only [step] at h
  cases hF : Backward env flag g s with
  | ok out s1 => rw [hF] at h; simp only [bind_ok, Outcome.ok.injEq] at h; exact ⟨out, by rw [h.2]⟩
  | fatal w s1 => rw [hF] at h; simp [Outcome.bind] at h
  | undefined u => rw [hF] at h; simp [Outcome.bind] at h

theorem run_cons_ok (env : Env) (c : Call) (cs : List Call) (s s' : State) (u : Unit)
    (h : run env (c :: cs) s = .ok u s') :
    ∃ s1, step env c s = .ok () s1 ∧ run env cs s1 = .ok u s' := by
  rw [run] at h
  cases hS : step env c s with
  | ok v s1 => rw [hS] at h; exact ⟨s1, rfl, h⟩
  | fatal w s1 => rw [hS] at h; simp [Outcome.bind] at h
  | undefined u => rw [hS] at h; simp [Outcome.bind] at h

/-- Every returning `Forward` adds two tensors to the buffer and every returning
`Backward` takes two away. -/
theorem run_ok_buf_length (env : Env) (cs : List Call) :
    ∀ (s s' : State) (u : Unit), run env cs s = .ok u s' →
      s'.buf_.length + 2 * countBackward cs = s.buf_.length + 2 * countForward cs := by
  induction cs with
  | nil =>
    intro s s' u h
    simp only [run, Outcome.ok.injEq] at h
    simp [countForward, countBackward, h.2]
  | cons c cs ih =>
    intro s s' u h
    obtain ⟨s1, h1, h2⟩ := run_cons_ok env c cs s s' u h
    have := ih s1 s' u h2
    cases c with
    | forward flag x =>
      obtain ⟨out, hF⟩ := step_forward_ok env flag x s s1 () h1
      obtain ⟨_, _, xb, hxb, hs⟩ := Forward_eq_ok env flag x s out s1 hF
      have hb : s1.buf_ = out :: x :: s.buf_ := by rw [hs]
      rw [countForward_cons_forward, countBackward_cons_forward]
      rw [hb] at this
      simp only [List.length_cons] at this
      omega
    | backward flag g =>
      obtain ⟨r, hB⟩ := step_backward_ok env flag g s s1 () h1
      obtain ⟨o, i, hb, _⟩ := Backward_ok_buf env flag g s r s1 hB
      rw [countForward_cons_backward, countBackward_cons_backward, hb]
      simp only [List.length_cons]
      omega

/-- With at least as many `Forward` as `Backward` calls in every initial part,
no `Backward` finds fewer than two tensors in the buffer. -/
theorem run_ne_emptyStack (env : Env) (cs : List Call) :
    ∀ (s : State),
      (∀ k, 2 * countBackward (cs.take k) ≤ s.buf_.length + 2 * countForward (cs.take k)) →
      run env cs s ≠ .undefined .emptyStack := by
  induction cs with
  | nil => intro s _; simp [run]
  | cons c cs ih =>
    intro s hp
    rw [run]
    cases hS : step env c s with
    | ok v s1 =>
      rw [bind_ok]
      apply ih
      intro k
      have hk := hp (k + 1)
      simp only [List.take_succ_cons] at hk
      cases c with
      | forward flag x =>
        obtain ⟨out, hF⟩ := step_forward_ok env flag x s s1 v hS
        obtain ⟨_, _, xb, hxb, hs⟩ := Forward_eq_ok env flag x s out s1 hF
        have hb : s1.buf_ = out :: x :: s.buf_ := by rw [hs]
        rw [countForward_cons_forward, countBackward_cons_forward] at hk
        rw [hb]
        simp only [List.length_cons]
        omega
      | backward flag g =>
        obtain ⟨r, hB⟩ := step_backward_ok env flag g s s1 v hS
        obtain ⟨o, i, hb, _⟩ := Backward_ok_buf env flag g s r s1 hB
        rw [countForward_cons_backward, countBackward_cons_backward, hb] at hk
        simp only [List.length_cons] at hk
        omega
    | fatal w s1 => simp [Outcome.bind]
    | undefined u =>
      rw [bind_undefined]
      intro hu
      simp only [Outcome.undefined.injEq] at hu
      subst hu
      cases c with
      | forward flag x =>
        simp only [step] at hS
        cases hF : Forward env flag x s with
        | ok out s2 => rw [hF] at hS; simp [Outcome.bind] at hS
        | fatal w s2 => rw [hF] at hS; simp [Outcome.bind] at hS
        | undefined u2 =>
          rw [hF, bind_undefined] at hS
          simp only [Outcome.undefined.injEq] at hS
          subst hS
          have := (Forward_eq_undefined env flag x s _ hF).1
          cases this
      | backward flag g =>
        simp only [step] at hS
        cases hB : Backward env flag g s with
        | ok out s2 => rw [hB] at hS; simp [Outcome.bind] at hS
        | fatal w s2 => rw [hB] at hS; simp [Outcome.bind] at hS
        | undefined u2 =>
          rw [hB, bind_undefined] at hS
          simp only [Outcome.undefined.injEq] at hS
          subst hS
          rcases Backward_eq_undefined env flag g s _ hB with ⟨_, hlen⟩ | ⟨hc, _⟩
          · have hk := hp 1
            simp only [List.take_succ_cons, List.take_zero] at hk
            rw [countForward_cons_backward, countBackward_cons_backward] at hk
            simp [countForward, countBackward] at hk
            omega
          · cases hc

theorem Forward_ok_blocks (env : Env) (flag : Int) (input : Tensor) (s : State) (out : Tensor)
    (s' : State) (h : Forward env flag input s = .ok out s') (hb : BufHasBlocks s) :
    BufHasBlocks s' ∧ out.blob ≠ none ∧ input.blob ≠ none := by
  obtain ⟨_, ho, x, hx, hs⟩ := Forward_eq_ok env flag input s out s' h
  have ho' : out.blob ≠ none := by rw [ho]; simp [outputOf]
  have hi' : input.blob ≠ none := by rw [hx]; simp
  refine ⟨?_, ho', hi'⟩
  intro t ht
  rw [hs] at ht
  simp only [List.mem_cons] at ht
  rcases ht with ht | ht | ht
  · rw [ht]; exact ho'
  · rw [ht]; exact hi'
  · exact hb t ht

theorem Backward_ok_blocks (env : Env) (flag : Int) (grad : Tensor) (s : State)
    (r : Tensor × List Tensor) (s' : State) (h : Backward env flag grad s = .ok r s')
    (hb : BufHasBlocks s) : BufHasBlocks s' := by
  obtain ⟨o, i, hbuf, _⟩ := Backward_ok_buf env flag grad s r s' h
  intro t ht
  exact hb t (by rw [hbuf]; exact List.mem_cons_of_mem _ (List.mem_cons_of_mem _ ht))

/-- Returning calls keep every buffered tensor with a memory block. -/
theorem run_ok_blocks (env : Env) (cs : List Call) :
    ∀ (s s' : State) (u : Unit), run env cs s = .ok u s' → BufHasBlocks s → BufHasBlocks s' := by
  induction cs with
  | nil =>
    intro s s' u h hb
    simp only [run, Outcome.ok.injEq] at h
    rw [← h.2]; exact hb
  | cons c cs ih =>
    intro s s' u h hb
    obtain ⟨s1, h1, h2⟩ := run_cons_ok env c cs s s' u h
    apply ih s1 s' u h2
    cases c with
    | forward flag x =>
      obtain ⟨out, hF⟩ := step_forward_ok env flag x s s1 () h1
      exact (Forward_ok_blocks env flag x s out s1 hF hb).1
    | backward flag g =>
      obtain ⟨r, hB⟩ := step_backward_ok env flag g s s1 () h1
      exact Backward_ok_blocks env flag g s r s1 hB hb

theorem fresh_blocks (l : Int) (a b k : Rat) : BufHasBlocks (fresh l a b k) := by
  intro t ht
  simp [fresh] at ht

theorem run_progress (env : Env) (hl : LibSucceeds env) (cs : List Call) :
    ∀ (s : State),
      (∀ f x, Call.forward f x ∈ cs → x.shape.length = 4) →
      (∀ c ∈ cs, callHasBlock env c) → BufHasBlocks s →
      (∀ j, 2 * countBackward (cs.take j) ≤ s.buf_.length + 2 * countForward (cs.take j)) →
      ∃ s', run env cs s = .ok () s' := by
  induction cs with
  | nil => intro s _ _ _ _; exact ⟨s, rfl⟩
  | cons c cs ih =>
    intro s h4 hblk hbuf hp
    have h4' : ∀ f x, Call.forward f x ∈ cs → x.shape.length = 4 :=
      fun f x hm => h4 f x (List.mem_cons_of_mem _ hm)
    have hblk' : ∀ c' ∈ cs, callHasBlock env c' :=
      fun c' hm => hblk c' (List.mem_cons_of_mem _ hm)
    have hc := hblk c (List.mem_cons_self _ _)
    rw [run]
    cases c with
    | forward flag x =>
      have hx : x.blob ≠ none := hc
      obtain ⟨xb, hxb⟩ := Option.ne_none_iff_exists'.1 hx
      obtain ⟨out, s1, hF⟩ := Forward_progress env flag x s xb hl
        (Or.inr (h4 flag x (List.mem_cons_self _ _))) hxb
      simp only [step, hF, bind_ok]
      apply ih s1 h4' hblk' (Forward_ok_blocks env flag x s out s1 hF hbuf).1
      intro j
      have hk := hp (j + 1)
      simp only [List.take_succ_cons] at hk
      obtain ⟨_, _, _, _, hs⟩ := Forward_eq_ok env flag x s out s1 hF
      have hb : s1.buf_ = out :: x :: s.buf_ := by rw [hs]
      rw [countForward_cons_forward, countBackward_cons_forward] at hk
      rw [hb]
      simp only [List.length_cons]
      omega
    | backward flag g =>
      have h1 := hp 1
      simp only [List.take_succ_cons, List.take_zero] at h1
      rw [countForward_cons_backward, countBackward_cons_backward] at h1
      simp [countForward, countBackward] at h1
      have hg : isTrain env flag → g.blob ≠ none := hc
      have hcond : (LibSucceeds env ∧ g.blob ≠ none ∧ BufHasBlocks s) ∨ ¬ isTrain env flag := by
        by_cases ht : isTrain env flag
        · exact Or.inl ⟨hl, hg ht, hbuf⟩
        · exact Or.inr ht
      obtain ⟨dx, s1, hB, _⟩ := Backward_progress env flag g s h1 hcond
      simp only [step, hB, bind_ok]
      apply ih s1 h4' hblk' (Backward_ok_blocks env flag g s _ s1 hB hbuf)
      intro j
      have hk := hp (j + 1)
      simp only [List.take_succ_cons] at hk
      obtain ⟨o, i, hb, _⟩ := Backward_ok_buf env flag g s _ s1 hB
      rw [countForward_cons_backward, countBackward_cons_backward, hb] at hk
      simp only [List.length_cons] at hk
      omega

theorem stackOf_append (ps qs : List (Tensor × Tensor)) :
    stackOf (ps ++ qs) = stackOf ps ++ stackOf qs := by
  induction ps with
  | nil => rfl
  | cons p ps ih => simp [stackOf, ih]

theorem runForward_cons_ok (env : Env) (x : Int × Tensor) (xs : List (Int × Tensor))
    (s s' : State) (ys : List Tensor) (h : runForward env (x :: xs) s = .ok ys s') :
    ∃ y s1 ys', Forward env x.1 x.2 s = .ok y s1 ∧ runForward env xs s1 = .ok ys' s' ∧
      ys = y :: ys' := by
  rw [runForward] at h
  cases hF : Forward env x.1 x.2 s with
  | ok y s1 =>
    rw [hF, bind_ok] at h
    cases hR : runForward env xs s1 with
    | ok ys' s2 =>
      rw [hR, bind_ok] at h
      simp only [Outcome.ok.injEq] at h
      exact ⟨y, s1, ys', rfl, by rw [hR, h.2], h.1.symm⟩
    | fatal w s2 => rw [hR] at h; simp [Outcome.bind] at h
    | undefined u => rw [hR] at h; simp [Outcome.bind] at h
  | fatal w s1 => rw [hF] at h; simp [Outcome.bind] at h
  | undefined u => rw [hF] at h; simp [Outcome.bind] at h

theorem runBackward_cons_ok (env : Env) (g : Int × Tensor) (gs : List (Int × Tensor))
    (s s' : State) (rs : List (Tensor × List Tensor))
    (h : runBackward env (g :: gs) s = .ok rs s') :
    ∃ r s1 rs', Backward env g.1 g.2 s = .ok r s1 ∧ runBackward env gs s1 = .ok rs' s' ∧
      rs = r :: rs' := by
  rw [runBackward] at h
  cases hF : Backward env g.1 g.2 s with
  | ok y s1 =>
    rw [hF, bind_ok] at h
    cases hR : runBackward env gs s1 with
    | ok ys' s2 =>
      rw [hR, bind_ok] at h
      simp only [Outcome.ok.injEq] at h
      exact ⟨y, s1, ys', rfl, by rw [hR, h.2], h.1.symm⟩
    | fatal w s2 => rw [hR] at h; simp [Outcome.bind] at h
    | undefined u => rw [hR] at h; simp [Outcome.bind] at h
  | fatal w s1 => rw [hF] at h; simp [Outcome.bind] at h
  | undefined u => rw [hF] at h; simp [Outcome.bind] at h

/-- After returning `Forward` calls the buffer holds their (output, input)
pairs, the last call topmost, above what it held before. -/
theorem runForward_ok_buf (env : Env) (xs : List (Int × Tensor)) :
    ∀ (s s' : State) (ys : List Tensor), runForward env xs s = .ok ys s' →
      ys.length = xs.length ∧
      s'.buf_ = stackOf (ys.zip (xs.map Prod.snd)).reverse ++ s.buf_ := by
  induction xs with
  | nil =>
    intro s s' ys h
    simp only [runForward, Outcome.ok.injEq] at h
    simp [← h.1, ← h.2, stackOf]
  | cons x xs ih =>
    intro s s' ys h
    obtain ⟨y, s1, ys', hF, hR, hys⟩ := runForward_cons_ok env x xs s s' ys h
    obtain ⟨hlen, hbuf⟩ := ih s1 s' ys' hR
    obtain ⟨_, hy1, xb, hxb, hs1⟩ := Forward_eq_ok env x.1 x.2 s y s1 hF
    have hb : s1.buf_ = y :: x.2 :: s.buf_ := by rw [hs1]
    subst hys
    refine ⟨by simp [hlen], ?_⟩
    rw [hbuf, hb]
    simp [stackOf_append, stackOf]

/-- Returning `Backward` calls remove as many pairs from the top of the buffer. -/
theorem runBackward_ok_buf (env : Env) (gs : List (Int × Tensor)) :
    ∀ (s s' : State) (rs : List (Tensor × List Tensor)) (ps : List (Tensor × Tensor))
      (base : List Tensor), runBackward env gs s = .ok rs s' →
      s.buf_ = stackOf ps ++ base → gs.length ≤ ps.length →
      s'.buf_ = stackOf (ps.drop gs.length) ++ base := by
  induction gs with
  | nil =>
    intro s s' rs ps base h hb _
    simp only [runBackward, Outcome.ok.injEq] at h
    simp [← h.2, hb]
  | cons g gs ih =>
    intro s s' rs ps base h hb hlen
    obtain ⟨r, s1, rs', hB, hR, _⟩ := runBackward_cons_ok env g gs s s' rs h
    obtain ⟨o, i, hbuf, _⟩ := Backward_ok_buf env g.1 g.2 s r s1 hB
    cases ps with
    | nil => simp at hlen
    | cons p ps =>
      rw [hb] at hbuf
      simp only [stackOf, List.cons_append, List.cons.injEq] at hbuf
      have := ih s1 s' rs' ps base hR hbuf.2.2.symm (by simpa using hlen)
      simpa using this

/-- Returning `Forward` calls had inputs with memory blocks and gave outputs with
memory blocks. -/
theorem runForward_ok_blobs (env : Env) (xs : List (Int × Tensor)) :
    ∀ (s s' : State) (ys : List Tensor), runForward env xs s = .ok ys s' →
      (∀ y ∈ ys, y.blob ≠ none) ∧ (∀ x ∈ xs, x.2.blob ≠ none) := by
  induction xs with
  | nil =>
    intro s s' ys h
    simp only [runForward, Outcome.ok.injEq] at h
    rw [← h.1]
    exact ⟨fun _ hy => by simp at hy, fun _ hx => by simp at hx⟩
  | cons x xs ih =>
    intro s s' ys h
    obtain ⟨y, s1, ys', hF, hR, hys⟩ := runForward_cons_ok env x xs s s' ys h
    obtain ⟨h1, h2⟩ := ih s1 s' ys' hR
    obtain ⟨_, hy1, xb, hxb, _⟩ := Forward_eq_ok env x.1 x.2 s y s1 hF
    subst hys
    constructor
    · intro z hz
      rcases List.mem_cons.1 hz with hz | hz
      · rw [hz, hy1]; simp [outputOf]
      · exact h1 z hz
    · intro z hz
      rcases List.mem_cons.1 hz with hz | hz
      · rw [hz, hxb]; simp
      · exact h2 z hz

theorem runForward_progress (env : Env) (hl : LibSucceeds env) (xs : List (Int × Tensor)) :
    ∀ (s : State), (∀ x ∈ xs, x.2.shape.length = 4) → (∀ x ∈ xs, x.2.blob ≠ none) →
      ∃ ys s', runForward env xs s = .ok ys s' := by
  induction xs with
  | nil => intro s _ _; exact ⟨[], s, rfl⟩
  | cons x xs ih =>
    intro s h4 hb
    obtain ⟨xb, hxb⟩ := Option.ne_none_iff_exists'.1 (hb x (List.mem_cons_self _ _))
    obtain ⟨y, s1, hF⟩ := Forward_progress env x.1 x.2 s xb hl
      (Or.inr (h4 x (List.mem_cons_self _ _))) hxb
    obtain ⟨ys, s', hR⟩ := ih s1 (fun z hz => h4 z (List.mem_cons_of_mem _ hz))
      (fun z hz => hb z (List.mem_cons_of_mem _ hz))
    exact ⟨y :: ys, s', by rw [runForward, hF, bind_ok, hR, bind_ok]⟩

/-- On an initialized adapter, returning `Forward` calls add one library forward
call each to the trace and nothing else. -/
theorem runForward_init_trace (env : Env) (xs : List (Int × Tensor)) :
    ∀ (s s' : State) (ys : List Tensor), s.has_init_cudnn_ = true →
      runForward env xs s = .ok ys s' →
      ∃ fw, s'.trace = s.trace ++ fw ∧ fw.length = xs.length ∧
        (∀ e ∈ fw, isForwardCall e = true) ∧ s'.has_init_cudnn_ = true := by
  induction xs with
  | nil =>
    intro s s' ys hi h
    simp only [runForward, Outcome.ok.injEq] at h
    exact ⟨[], by simp [← h.2], rfl, by simp, by rw [← h.2]; exact hi⟩
  | cons x xs ih =>
    intro s s' ys hi h
    obtain ⟨y, s1, ys', hF, hR, _⟩ := runForward_cons_ok env x xs s s' ys h
    obtain ⟨_, hy1, xb, hxb, hs1⟩ := Forward_eq_ok env x.1 x.2 s y s1 hF
    have hd : dispatchState env x.2 s = s := by simp [dispatchState, hi]
    rw [hd] at hs1
    have hi1 : s1.has_init_cudnn_ = true := by rw [hs1]; exact hi
    have ht1 : s1.trace = s.trace ++ [.call (forwardCall s xb s.next_blob)] := by rw [hs1]
    obtain ⟨fw, htr, hlen, hall, hi'⟩ := ih s1 s' ys' hi1 hR
    refine ⟨.call (forwardCall s xb s.next_blob) :: fw, ?_, by simp [hlen], ?_, hi'⟩
    · rw [htr, ht1]; simp
    · intro e he
      rcases List.mem_cons.1 he with he | he
      · subst he; rfl
      · exact hall e he


theorem created_mono (env : Env) (t l : List Event) (c : LibCall) (d : Option Handle)
    (h : created env t c d) : created env (t ++ l) c d := by
  obtain ⟨n, hd, hg, hlib⟩ := h
  have hn : n < t.length := by
    by_contra hc
    have hle : t.length ≤ n := Nat.le_of_not_lt hc
    rw [List.getElem?_eq_none hle] at hg
    cases hg
  refine ⟨n, hd, ?_, ?_⟩
  · rw [List.getElem?_append_left hn]; exact hg
  · rw [List.take_append_of_le_length (le_of_lt hn)]; exact hlib

theorem Dispatched_append (env : Env) (t l : List Event) (ht : Dispatched env t)
    (hl : ∀ j c, l[j]? = some (.call c) → usesCreated env (t ++ l.take j) c) :
    Dispatched env (t ++ l) := by
  intro i c hi
  by_cases hlt : i < t.length
  · rw [List.getElem?_append_left hlt] at hi
    rw [List.take_append_of_le_length (le_of_lt hlt)]
    exact ht i c hi
  · have hge : t.length ≤ i := by omega
    rw [List.getElem?_append_right hge] at hi
    have := hl (i - t.length) c hi
    rw [List.take_append_eq_append_take, List.take_of_length_le hge]
    exact this

theorem Dispatched_append_call (env : Env) (t : List Event) (c : LibCall)
    (ht : Dispatched env t) (hc : usesCreated env t c) : Dispatched env (t ++ [.call c]) := by
  apply Dispatched_append env t _ ht
  intro j c' hj
  cases j with
  | zero =>
    simp only [List.getElem?_cons_zero, Option.some.injEq, Event.call.injEq] at hj
    subst hj
    simpa using hc
  | succ j => simp at hj

theorem Dispatched_append_log (env : Env) (t : List Event) (m : String)
    (ht : Dispatched env t) : Dispatched env (t ++ [.logError m]) := by
  apply Dispatched_append env t _ ht
  intro j c' hj
  cases j with
  | zero => simp at hj
  | succ j => simp at hj

theorem Dispatched_append_init (env : Env) (t l : List Event) (shape : Shape) (dtype : DataType)
    (s : State) (ht : Dispatched env t) (hl : l <+: initCalls env shape dtype s) :
    Dispatched env (t ++ l) := by
  apply Dispatched_append env t _ ht
  intro j c hj
  have hmem : Event.call c ∈ initCalls env shape dtype s :=
    hl.subset (List.getElem?_mem hj)
  simp only [initCalls, List.mem_cons, Event.call.injEq, List.mem_singleton,
    List.not_mem_nil, or_false] at hmem
  rcases hmem with h | h | h | h <;> subst h <;> trivial


theorem initDone_created (env : Env) (shape : Shape) (dtype : DataType) (s : State)
    (h1 : env.lib s.trace .cudnnCreateTensorDescriptor = true)
    (h2 : env.lib (s.trace ++ (initCalls env shape dtype s).take 2)
      .cudnnCreateLRNDescriptor = true) :
    created env (initDone env shape dtype s).trace .cudnnCreateLRNDescriptor
      (initDone env shape dtype s).lrn_desc_ ∧
    created env (initDone env shape dtype s).trace .cudnnCreateTensorDescriptor
      (initDone env shape dtype s).shape_desc_ := by
  constructor
  · refine ⟨s.trace.length + 2, rfl, ?_, ?_⟩
    · simp only [initDone]
      rw [List.getElem?_append_right (by omega)]
      simp [initCalls]
    · simp only [initDone]
      rw [List.take_append_eq_append_take, List.take_of_length_le (by omega)]
      simpa using h2
  · refine ⟨s.trace.length, rfl, ?_, ?_⟩
    · simp only [initDone]
      rw [List.getElem?_append_right (le_refl _)]
      simp [initCalls]
    · simp only [initDone]
      rw [List.take_append_eq_append_take, List.take_of_length_le (le_refl _)]
      simpa using h1

/-- The state in which `Forward` dispatches satisfies the invariant's descriptor
part, and its trace is well dispatched. -/
theorem dispatchState_ok (env : Env) (input : Tensor) (s : State) (hinv : Inv env s)
    (hlib : s.has_init_cudnn_ = false →
      env.lib s.trace .cudnnCreateTensorDescriptor = true ∧
      env.lib (s.trace ++ (initCalls env input.shape input.data_type s).take 2)
        .cudnnCreateLRNDescriptor = true) :
    (dispatchState env input s).has_init_cudnn_ = true ∧
    created env (dispatchState env input s).trace .cudnnCreateLRNDescriptor
      (dispatchState env input s).lrn_desc_ ∧
    created env (dispatchState env input s).trace .cudnnCreateTensorDescriptor
      (dispatchState env input s).shape_desc_ ∧
    Dispatched env (dispatchState env input s).trace := by
  cases hi : s.has_init_cudnn_
  · have hd : dispatchState env input s = initDone env input.shape input.data_type s := by
      simp [dispatchState, hi]
    rw [hd]
    obtain ⟨h1, h2⟩ := hlib hi
    obtain ⟨c1, c2⟩ := initDone_created env input.shape input.data_type s h1 h2
    refine ⟨rfl, c1, c2, ?_⟩
    exact Dispatched_append_init env s.trace _ input.shape input.data_type s hinv.2.2
      (List.prefix_refl _)
  · have hd : dispatchState env input s = s := by simp [dispatchState, hi]
    rw [hd]
    obtain ⟨c1, c2⟩ := hinv.2.1 hi
    exact ⟨hi, c1, c2, hinv.2.2⟩

theorem Forward_preserves_Inv (env : Env) (flag : Int) (input : Tensor) (s : State)
    (hinv : Inv env s) :
    (∀ out s', Forward env flag input s = .ok out s' → Inv env s') ∧
    (∀ w s', Forward env flag input s = .fatal w s' → Dispatched env s'.trace) := by
  constructor
  · intro out s' h
    obtain ⟨hlib, _, x, _, hs'⟩ := Forward_eq_ok env flag input s out s' h
    obtain ⟨hi, c1, c2, hd⟩ := dispatchState_ok env input s hinv (fun h => (hlib h).2)
    rw [hs']
    refine ⟨fun _ => hi, fun _ => ⟨created_mono _ _ _ _ _ c1, created_mono _ _ _ _ _ c2⟩, ?_⟩
    exact Dispatched_append_call env _ _ hd ⟨c1, c2, c2⟩
  · intro w s' h
    obtain ⟨_, _, htr⟩ := Forward_eq_fatal env flag input s s' w h
    rcases htr with ⟨_, l, hl, hp⟩ | ⟨hlib, x, _, htr⟩
    · rw [hl]
      exact Dispatched_append_init env s.trace l _ _ s hinv.2.2 hp
    · obtain ⟨hi, c1, c2, hd⟩ := dispatchState_ok env input s hinv hlib
      rw [htr]
      exact Dispatched_append_call env _ _ hd ⟨c1, c2, c2⟩

theorem Backward_preserves_Inv (env : Env) (flag : Int) (grad : Tensor) (s : State)
    (hinv : Inv env s) :
    (∀ r s', Backward env flag grad s = .ok r s' → Inv env s') ∧
    (∀ w s', Backward env flag grad s = .fatal w s' → Dispatched env s'.trace) := by
  match hb : s.buf_ with
  | [] =>
    rw [Backward_short env flag grad s (by simp [hb])]
    exact ⟨fun _ _ h => (by cases h), fun _ _ h => (by cases h)⟩
  | [_] =>
    rw [Backward_short env flag grad s (by simp [hb])]
    exact ⟨fun _ _ h => (by cases h), fun _ _ h => (by cases h)⟩
  | output :: input :: rest =>
    have hi : s.has_init_cudnn_ = true := hinv.1 (by simp [hb])
    obtain ⟨c1, c2⟩ := hinv.2.1 hi
    have hu : ∀ y dy x, usesCreated env s.trace (backwardCall s y dy x s.next_blob) :=
      fun _ _ _ => ⟨c1, c2, c2, c2, c2⟩
    have hdone : ∀ y dy x, Inv env (backwardDone s rest y dy x) := fun y dy x =>
      ⟨fun _ => hi, fun _ => ⟨created_mono _ _ _ _ _ c1, created_mono _ _ _ _ _ c2⟩,
        Dispatched_append_call env _ _ hinv.2.2 (hu y dy x)⟩
    rcases Backward_cases env flag grad s output input rest hb with
      ⟨hn, hB⟩ | ⟨ht, hnone, hB⟩ | ⟨ht, y, dy, x, _, _, _, ⟨_, hB⟩ | ⟨_, hB⟩⟩
    · rw [hB]
      constructor
      · intro r s' h
        simp only [Outcome.ok.injEq] at h
        rw [← h.2]
        exact ⟨fun _ => hi, fun _ => ⟨created_mono _ _ _ _ _ c1, created_mono _ _ _ _ _ c2⟩,
          Dispatched_append_log env _ _ hinv.2.2⟩
      · intro w s' h; cases h
    · rw [hB]
      exact ⟨fun _ _ h => (by cases h), fun _ _ h => (by cases h)⟩
    · rw [hB]
      constructor
      · intro r s' h
        simp only [Outcome.ok.injEq] at h
        rw [← h.2]
        exact hdone y dy x
      · intro w s' h; cases h
    · rw [hB]
      constructor
      · intro r s' h; cases h
      · intro w s' h
        simp only [Outcome.fatal.injEq] at h
        rw [← h.2]
        exact (hdone y dy x).2.2

theorem run_preserves_Inv (env : Env) (cs : List Call) :
    ∀ (s : State), Inv env s →
      (∀ u s', run env cs s = .ok u s' → Inv env s') ∧
      (∀ w s', run env cs s = .fatal w s' → Dispatched env s'.trace) := by
  induction cs with
  | nil =>
    intro s hinv
    simp only [run]
    exact ⟨fun _ _ h => (by cases h; exact hinv), fun _ _ h => (by cases h)⟩
  | cons c cs ih =>
    intro s hinv
    rw [run]
    cases c with
    | forward flag x =>
      obtain ⟨hok, hfat⟩ := Forward_preserves_Inv env flag x s hinv
      simp only [step]
      cases hF : Forward env flag x s with
      | ok out s1 => simp only [bind_ok]; exact ih s1 (hok out s1 hF)
      | fatal w s1 =>
        simp only [Outcome.bind]
        exact ⟨fun _ _ h => (by cases h), fun _ _ h => (by cases h; exact hfat w s1 hF)⟩
      | undefined u =>
        simp only [Outcome.bind]
        exact ⟨fun _ _ h => (by cases h), fun _ _ h => (by cases h)⟩
    | backward flag g =>
      obtain ⟨hok, hfat⟩ := Backward_preserves_Inv env flag g s hinv
      simp only [step]
      cases hB : Backward env flag g s with
      | ok out s1 => simp only [bind_ok]; exact ih s1 (hok out s1 hB)
      | fatal w s1 =>
        simp only [Outcome.bind]
        exact ⟨fun _ _ h => (by cases h), fun _ _ h => (by cases h; exact hfat w s1 hB)⟩
      | undefined u =>
        simp only [Outcome.bind]
        exact ⟨fun _ _ h => (by cases h), fun _ _ h => (by cases h)⟩

theorem fresh_Inv (env : Env) (l : Int) (a b k : Rat) : Inv env (fresh l a b k) := by
  refine ⟨fun h => absurd rfl h, fun h => (by simp [fresh] at h), ?_⟩
  intro i c h
  simp [fresh] at h


/-- With 4-dimensional inputs a sequence of `Forward` calls can only abort in
`CUDNN_CHECK`: the first call passes both checks of `InitCudnn` and no later
call reaches it. -/
theorem runForward_fatal_cudnn (env : Env) (xs : List (Int × Tensor)) :
    ∀ (s s' : State) (w : Fatal), (∀ z ∈ xs, z.2.shape.length = 4) →
      runForward env xs s = .fatal w s' → w = .cudnn := by
  induction xs with
  | nil => intro s s' w _ h; simp [runForward] at h
  | cons x xs ih =>
    intro s s' w h4 h
    rw [runForward] at h
    cases hF : Forward env x.1 x.2 s with
    | ok y s1 =>
      rw [hF, bind_ok] at h
      cases hR : runForward env xs s1 with
      | ok ys' s2 => rw [hR, bind_ok] at h; cases h
      | fatal w2 s2 =>
        rw [hR, bind_fatal] at h
        simp only [Outcome.fatal.injEq] at h
        rw [← h.1]
        exact ih s1 s2 w2 (fun z hz => h4 z (List.mem_cons_of_mem _ hz)) hR
      | undefined u => rw [hR, bind_undefined] at h; cases h
    | fatal w1 s1 =>
      rw [hF, bind_fatal] at h
      simp only [Outcome.fatal.injEq] at h
      rw [← h.1]
      obtain ⟨hw, _⟩ := Forward_eq_fatal env x.1 x.2 s s1 w1 hF
      rcases hw with hw | ⟨_, hw⟩
      · exact hw
      · exact absurd (h4 x (List.mem_cons_self _ _)) hw
    | undefined u => rw [hF, bind_undefined] at h; cases h

/-! ## Claims -/

/-- C5: `InitCudnn` on an adapter that is already initialized aborts at once,
in the unchanged state (no library call has been issued, no descriptor created
or modified), whatever the shape and numeric type; on an adapter that is not
initialized, with a shape of 4 dimensions and library calls that succeed, it
returns with `has_init_cudnn_` set. -/
theorem InitCudnn_double_init_fatal (env : Env) (shape : Shape) (dtype : DataType) (s : State) :
    (s.has_init_cudnn_ = true → InitCudnn env shape dtype s = .fatal .check s) ∧
    (s.has_init_cudnn_ = false → shape.length = 4 → LibSucceeds env →
      ∃ s', InitCudnn env shape dtype s = .ok () s' ∧ s'.has_init_cudnn_ = true) := by
  constructor
  · intro h
    simp [InitCudnn, CHECK, Outcome.bind, h]
  · intro h h4 hl
    simp [InitCudnn, CHECK, CUDNN_CHECK, cudnnCreate, Outcome.bind, h, h4, hl _ _]

/-- Witness for C5: an initialized adapter aborts at the check, a new one is
initialized by a 4-dimensional shape. -/
theorem InitCudnn_double_init_fatal_witness :
    InitCudnn (okEnv 1) [2, 3, 4, 5] 0 { fresh 5 1 1 1 with has_init_cudnn_ := true }
      = .fatal .check { fresh 5 1 1 1 with has_init_cudnn_ := true } ∧
    ∃ s', InitCudnn (okEnv 1) [2, 3, 4, 5] 0 (fresh 5 1 1 1) = .ok () s' ∧
      s'.has_init_cudnn_ = true :=
  ⟨(InitCudnn_double_init_fatal (okEnv 1) [2, 3, 4, 5] 0
      { fresh 5 1 1 1 with has_init_cudnn_ := true }).1 rfl,
   (InitCudnn_double_init_fatal (okEnv 1) [2, 3, 4, 5] 0 (fresh 5 1 1 1)).2 rfl rfl
      (fun _ _ => rfl)⟩

/-- C6: on an adapter that is not initialized, `InitCudnn` with a shape whose
number of dimensions is not 4 aborts; the only library call issued by then is
`cudnnCreateTensorDescriptor` (neither descriptor has been configured) and
`has_init_cudnn_` is still false. -/
theorem InitCudnn_non4d_fatal (env : Env) (shape : Shape) (dtype : DataType) (s : State)
    (hinit : s.has_init_cudnn_ = false) (hdim : shape.length ≠ 4) :
    ∃ why s', InitCudnn env shape dtype s = .fatal why s' ∧
      s'.trace = s.trace ++ [.call .cudnnCreateTensorDescriptor] ∧
      s'.has_init_cudnn_ = false := by
  by_cases hl : env.lib s.trace .cudnnCreateTensorDescriptor = true
  · simp [InitCudnn, CHECK, CUDNN_CHECK, cudnnCreate, Outcome.bind, hinit, hdim, hl]
    exact ⟨_, _, ⟨rfl, rfl⟩, rfl, rfl⟩
  · simp [InitCudnn, CHECK, CUDNN_CHECK, cudnnCreate, Outcome.bind, hinit, hl]
    exact ⟨_, _, ⟨rfl, rfl⟩, rfl, rfl⟩

/-- Witness for C6: a shape of 3 dimensions on a new adapter. -/
theorem InitCudnn_non4d_fatal_witness :
    ∃ why s', InitCudnn (okEnv 1) [2, 3, 4] 0 (fresh 5 1 1 1) = .fatal why s' ∧
      s'.trace = (fresh 5 1 1 1).trace ++ [.call .cudnnCreateTensorDescriptor] ∧
      s'.has_init_cudnn_ = false :=
  InitCudnn_non4d_fatal (okEnv 1) [2, 3, 4] 0 (fresh 5 1 1 1) rfl (by decide)

/-- C3: for every flag without the training bit and every incoming gradient,
`Backward` on a state with a buffered activation pair returns (it does not
abort) the default-constructed tensor and an empty parameter-gradient list;
the only event it adds is the error log line, so the library backward
primitive is not called; the pair is removed from the buffer. -/
theorem Backward_eval_phase (env : Env) (flag : Int) (grad : Tensor) (s : State)
    (output input : Tensor) (rest : List Tensor)
    (hbuf : s.buf_ = output :: input :: rest) (hflag : ¬ isTrain env flag) :
    Backward env flag grad s =
      .ok (Tensor.empty, [])
        { s with buf_ := rest
                 trace := s.trace ++
                   [.logError "Do not call backward for evaluation phase"] } := by
  rcases Backward_cases env flag grad s output input rest hbuf with
    ⟨_, hB⟩ | ⟨ht, _⟩ | ⟨ht, _⟩
  · rw [hB]; rfl
  · exact absurd ht hflag
  · exact absurd ht hflag

/-- Witness for C3: training bit 1 and flag 2, with one pair in the buffer. -/
theorem Backward_eval_phase_witness :
    Backward (okEnv 1) 2 ⟨[2, 3, 4, 5], 0, 0, some 9⟩
        { fresh 5 1 1 1 with buf_ := [⟨[1], 0, 0, some 1⟩, ⟨[1], 0, 0, some 0⟩] } =
      .ok (Tensor.empty, [])
        { fresh 5 1 1 1 with
          trace := [.logError "Do not call backward for evaluation phase"] } :=
  Backward_eval_phase (okEnv 1) 2 ⟨[2, 3, 4, 5], 0, 0, some 9⟩
    { fresh 5 1 1 1 with buf_ := [⟨[1], 0, 0, some 1⟩, ⟨[1], 0, 0, some 0⟩] }
    ⟨[1], 0, 0, some 1⟩ ⟨[1], 0, 0, some 0⟩ [] rfl (by decide)

/-- C7: the destructor of an adapter that was never initialized returns in the
unchanged state, with no library call; the destructor of an initialized adapter
that runs to its end has issued `cudnnDestroyLRNDescriptor` on the LRN
descriptor and then `cudnnDestroyTensorDescriptor` on the tensor descriptor,
once each and nothing else, and it does run to its end when the library calls
succeed (a release that reports a failure is fatal under `CUDNN_CHECK`). -/
theorem destroy_releases (env : Env) (s : State) :
    (s.has_init_cudnn_ = false → destroy env s = .ok () s) ∧
    (s.has_init_cudnn_ = true →
      (∀ s', destroy env s = .ok () s' →
        s' = { s with trace := s.trace ++
                 [.call (.cudnnDestroyLRNDescriptor s.lrn_desc_),
                  .call (.cudnnDestroyTensorDescriptor s.shape_desc_)] }) ∧
      (LibSucceeds env →
        destroy env s = .ok ()
          { s with trace := s.trace ++
                 [.call (.cudnnDestroyLRNDescriptor s.lrn_desc_),
                  .call (.cudnnDestroyTensorDescriptor s.shape_desc_)] })) := by
  constructor
  · intro h
    simp [destroy, h]
  · intro h
    have hd : destroy env s =
        if env.lib s.trace (.cudnnDestroyLRNDescriptor s.lrn_desc_) then
          if env.lib (s.trace ++ [.call (.cudnnDestroyLRNDescriptor s.lrn_desc_)])
              (.cudnnDestroyTensorDescriptor s.shape_desc_) then
            .ok () { s with trace := s.trace ++
                 [.call (.cudnnDestroyLRNDescriptor s.lrn_desc_),
                  .call (.cudnnDestroyTensorDescriptor s.shape_desc_)] }
          else
            .fatal .cudnn { s with trace := s.trace ++
                 [.call (.cudnnDestroyLRNDescriptor s.lrn_desc_),
                  .call (.cudnnDestroyTensorDescriptor s.shape_desc_)] }
        else .fatal .cudnn
          { s with trace := s.trace ++ [.call (.cudnnDestroyLRNDescriptor s.lrn_desc_)] } := by
      rw [destroy, if_pos h, bind_CUDNN_CHECK]
      simp only [CUDNN_CHECK, List.append_assoc, List.singleton_append]
    rw [hd]
    refine ⟨?_, ?_⟩
    · intro s' hs
      split_ifs at hs
      simp only [Outcome.ok.injEq, true_and] at hs
      exact hs.symm
    · intro hl
      simp [hl _ _]

/-- Witness for C7: the destructor on a new adapter and on an initialized one. -/
theorem destroy_releases_witness :
    destroy (okEnv 1) (fresh 5 1 1 1) = .ok () (fresh 5 1 1 1) ∧
    destroy (okEnv 1)
        { fresh 5 1 1 1 with has_init_cudnn_ := true, shape_desc_ := some 0,
                             lrn_desc_ := some 2 } =
      .ok ()
        { fresh 5 1 1 1 with has_init_cudnn_ := true, shape_desc_ := some 0,
                             lrn_desc_ := some 2,
                             trace := [.call (.cudnnDestroyLRNDescriptor (some 2)),
                                       .call (.cudnnDestroyTensorDescriptor (some 0))] } :=
  ⟨(destroy_releases (okEnv 1) (fresh 5 1 1 1)).1 rfl,
   ((destroy_releases (okEnv 1)
      { fresh 5 1 1 1 with has_init_cudnn_ := true, shape_desc_ := some 0,
                           lrn_desc_ := some 2 }).2 rfl).2 (fun _ _ => rfl)⟩

/-- C9: in every state reached from a new adapter by returning `Forward` and
`Backward` calls (no `Backward` on an empty buffer), a non-empty activation
buffer implies `has_init_cudnn_`; the descriptor members of an initialized
adapter are handles handed out by successful create calls; and every library
forward or backward call in the trace, also in the trace of a run that aborts,
received descriptors created earlier in the trace. -/
theorem descriptors_created_before_use (env : Env) (l : Int) (a b k : Rat)
    (calls : List Call) :
    (∀ s, run env calls (fresh l a b k) = .ok () s →
      (s.buf_ ≠ [] → s.has_init_cudnn_ = true) ∧
      (s.has_init_cudnn_ = true →
        created env s.trace .cudnnCreateLRNDescriptor s.lrn_desc_ ∧
        created env s.trace .cudnnCreateTensorDescriptor s.shape_desc_) ∧
      Dispatched env s.trace) ∧
    (∀ w s, run env calls (fresh l a b k) = .fatal w s → Dispatched env s.trace) :=
  ⟨fun s h => (run_preserves_Inv env calls _ (fresh_Inv env l a b k)).1 () s h,
   fun w s h => (run_preserves_Inv env calls _ (fresh_Inv env l a b k)).2 w s h⟩

/-- Witness for C9: two `Forward` calls and a `Backward` in training. -/
theorem descriptors_created_before_use_witness :
    ∃ s, run (okEnv 1)
        [.forward 1 ⟨[2, 3, 4, 5], 0, 0, some 100⟩, .forward 1 ⟨[2, 3, 4, 5], 0, 0, some 101⟩,
         .backward 1 ⟨[2, 3, 4, 5], 0, 0, some 102⟩] (fresh 5 1 1 1) = .ok () s ∧
      s.buf_ ≠ [] ∧ s.has_init_cudnn_ = true ∧ Dispatched (okEnv 1) s.trace :=
  ⟨_, rfl, by decide, rfl,
    ((descriptors_created_before_use (okEnv 1) 5 1 1 1
      [.forward 1 ⟨[2, 3, 4, 5], 0, 0, some 100⟩, .forward 1 ⟨[2, 3, 4, 5], 0, 0, some 101⟩,
       .backward 1 ⟨[2, 3, 4, 5], 0, 0, some 102⟩]).1 _ rfl).2.2⟩


/-- C1, as amended: for every input tensor of 4 dimensions that has a memory
block, every flag and every adapter state, initialized or not, `Forward` returns
a tensor whose shape is the shape of the input; the only other outcome is the
abort of `CUDNN_CHECK` on a library call that reports a failure (a numeric type
the library does not support is such a failure), and with library calls that
succeed `Forward` does return. -/
theorem Forward_output_shape (env : Env) (flag : Int) (input : Tensor) (s : State)
    (h4 : input.shape.length = 4) (hblock : input.blob ≠ none) :
    ((∃ out s', Forward env flag input s = .ok out s' ∧ out.shape = input.shape) ∨
      ∃ s', Forward env flag input s = .fatal .cudnn s') ∧
    (LibSucceeds env →
      ∃ out s', Forward env flag input s = .ok out s' ∧ out.shape = input.shape) := by
  constructor
  · cases hF : Forward env flag input s with
    | ok out s' =>
      obtain ⟨_, ho, _⟩ := Forward_eq_ok env flag input s out s' hF
      exact Or.inl ⟨out, s', rfl, by rw [ho]; rfl⟩
    | fatal w s' =>
      obtain ⟨hw, _⟩ := Forward_eq_fatal env flag input s s' w hF
      rcases hw with hw | ⟨_, hw⟩
      · subst hw; exact Or.inr ⟨s', rfl⟩
      · exact absurd h4 hw
    | undefined u => exact absurd (Forward_eq_undefined env flag input s u hF).2 hblock
  · intro hl
    obtain ⟨x, hx⟩ := Option.ne_none_iff_exists'.1 hblock
    obtain ⟨out, s', hF⟩ := Forward_progress env flag input s x hl (Or.inr h4) hx
    obtain ⟨_, ho, _⟩ := Forward_eq_ok env flag input s out s' hF
    exact ⟨out, s', hF, by rw [ho]; rfl⟩

/-- Witness for C1: a 4-dimensional input with a memory block, on a new adapter
and on an initialized one. -/
theorem Forward_output_shape_witness :
    (∃ out s', Forward (okEnv 1) 0 ⟨[2, 3, 4, 5], 0, 0, some 7⟩ (fresh 5 1 1 1) = .ok out s' ∧
      out.shape = [2, 3, 4, 5]) ∧
    (∃ out s', Forward (okEnv 1) 0 ⟨[2, 3, 4, 5], 0, 0, some 7⟩
        { fresh 5 1 1 1 with has_init_cudnn_ := true } = .ok out s' ∧
      out.shape = [2, 3, 4, 5]) :=
  ⟨(Forward_output_shape (okEnv 1) 0 ⟨[2, 3, 4, 5], 0, 0, some 7⟩ (fresh 5 1 1 1) rfl
      (by decide)).2 (fun _ _ => rfl),
   (Forward_output_shape (okEnv 1) 0 ⟨[2, 3, 4, 5], 0, 0, some 7⟩
      { fresh 5 1 1 1 with has_init_cudnn_ := true } rfl (by decide)).2 (fun _ _ => rfl)⟩

/-- Counterexample to C1 as stated: a 4-dimensional input tensor without a memory
block, with library calls that succeed.  On a new adapter and on an initialized
one, `Forward` reads the data of the input through the null block pointer
(line 68): undefined behaviour, and no output of the shape of the input is
returned. -/
theorem Forward_null_block_undefined :
    Forward (okEnv 1) 1 ⟨[2, 3, 4, 5], 0, 0, none⟩ (fresh 5 1 1 1) = .undefined .nullBlock ∧
    Forward (okEnv 1) 1 ⟨[2, 3, 4, 5], 0, 0, none⟩
      { fresh 5 1 1 1 with has_init_cudnn_ := true } = .undefined .nullBlock ∧
    ¬ ∃ out s', Forward (okEnv 1) 1 ⟨[2, 3, 4, 5], 0, 0, none⟩ (fresh 5 1 1 1) = .ok out s' ∧
      out.shape = [2, 3, 4, 5] :=
  ⟨rfl, rfl, fun ⟨_, _, h, _⟩ => by
    have h0 : Forward (okEnv 1) 1 ⟨[2, 3, 4, 5], 0, 0, none⟩ (fresh 5 1 1 1) =
        .undefined .nullBlock := rfl
    rw [h0] at h
    cases h⟩

/-- C2, as amended: in every state the adapter reaches from new by returning
calls with more `Forward` than `Backward` calls, and for every incoming gradient
that has a memory block: `Backward` with the training bit set returns a gradient
tensor of the shape of the incoming gradient and an empty parameter-gradient
list, the only other outcome being the abort of `CUDNN_CHECK` on a failed
library call, and it does return when the library calls succeed.  For every
gradient and every flag, whatever `Backward` returns has an empty
parameter-gradient list, and without the training bit it returns. -/
theorem Backward_train_gradient (env : Env) (l : Int) (a b k : Rat) (calls : List Call)
    (s : State) (hreach : run env calls (fresh l a b k) = .ok () s)
    (hmore : countBackward calls < countForward calls) (grad : Tensor) (flag : Int) :
    (isTrain env flag → grad.blob ≠ none →
      ((∃ dx s', Backward env flag grad s = .ok (dx, []) s' ∧ dx.shape = grad.shape) ∨
        ∃ s', Backward env flag grad s = .fatal .cudnn s') ∧
      (LibSucceeds env →
        ∃ dx s', Backward env flag grad s = .ok (dx, []) s' ∧ dx.shape = grad.shape)) ∧
    (∀ r s', Backward env flag grad s = .ok r s' → r.2 = []) ∧
    (¬ isTrain env flag → ∃ dx s', Backward env flag grad s = .ok (dx, []) s') := by
  have hlen : 2 ≤ s.buf_.length := by
    have := run_ok_buf_length env calls _ s () hreach
    simp only [fresh, List.length_nil] at this
    omega
  have hblk : BufHasBlocks s := run_ok_blocks env calls _ s () hreach (fresh_blocks l a b k)
  refine ⟨fun ht hg => ⟨?_, ?_⟩, ?_, ?_⟩
  · cases hB : Backward env flag grad s with
    | ok r s' =>
      obtain ⟨_, _, _, hr2, _, hr1, _⟩ := Backward_ok_buf env flag grad s r s' hB
      refine Or.inl ⟨r.1, s', ?_, ?_⟩
      · rw [← hr2]
      · rw [hr1 ht]; rfl
    | fatal w s' =>
      obtain ⟨hw, _⟩ := Backward_eq_fatal env flag grad s s' w hB
      subst hw
      exact Or.inr ⟨s', rfl⟩
    | undefined u =>
      exfalso
      rcases Backward_eq_undefined env flag grad s u hB with
        ⟨_, hshort⟩ | ⟨_, _, o, i, rest, hbuf, hnone⟩
      · omega
      · rcases hnone with h1 | h1 | h1
        · exact hblk o (by simp [hbuf]) h1
        · exact hg h1
        · exact hblk i (by simp [hbuf]) h1
  · intro hl
    obtain ⟨dx, s', hB, hs⟩ := Backward_progress env flag grad s hlen (Or.inl ⟨hl, hg, hblk⟩)
    exact ⟨dx, s', hB, hs ht⟩
  · intro r s' hB
    obtain ⟨_, _, _, hr2, _⟩ := Backward_ok_buf env flag grad s r s' hB
    exact hr2
  · intro hn
    obtain ⟨dx, s', hB, _⟩ := Backward_progress env flag grad s hlen (Or.inr hn)
    exact ⟨dx, s', hB⟩

/-- Witness for C2: after one `Forward`, with training bit 1, flag 1 and a
gradient that has a memory block. -/
theorem Backward_train_gradient_witness :
    ∃ s, run (okEnv 1) [.forward 1 ⟨[2, 3, 4, 5], 0, 0, some 100⟩] (fresh 5 1 1 1) = .ok () s ∧
      ∃ dx s', Backward (okEnv 1) 1 ⟨[2, 3, 4, 5], 0, 0, some 101⟩ s = .ok (dx, []) s' ∧
        dx.shape = [2, 3, 4, 5] :=
  ⟨_, rfl, ((Backward_train_gradient (okEnv 1) 5 1 1 1
    [.forward 1 ⟨[2, 3, 4, 5], 0, 0, some 100⟩] _ rfl (by decide)
    ⟨[2, 3, 4, 5], 0, 0, some 101⟩ 1).1 (by decide) (by decide)).2 (fun _ _ => rfl)⟩

/-- Counterexample to C2 as stated: after one returning `Forward`, `Backward`
with the training bit set and, as incoming gradient, the default-constructed
tensor (which `Backward` itself returns outside training) reads the data of the
gradient through the null block pointer (line 100): undefined behaviour, so no
pair is returned. -/
theorem Backward_null_gradient_undefined :
    ∃ s, run (okEnv 1) [.forward 1 ⟨[2, 3, 4, 5], 0, 0, some 100⟩] (fresh 5 1 1 1) = .ok () s ∧
      countBackward [Call.forward 1 ⟨[2, 3, 4, 5], 0, 0, some 100⟩] <
        countForward [Call.forward 1 ⟨[2, 3, 4, 5], 0, 0, some 100⟩] ∧
      isTrain (okEnv 1) 1 ∧
      Backward (okEnv 1) 1 Tensor.empty s = .undefined .nullBlock :=
  ⟨_, rfl, by decide, by decide, rfl⟩

/-- C4: after `n` returning `Forward` calls with inputs `x_1 .. x_n` and outputs
`y_1 .. y_n`, once `k - 1 < n` following `Backward` calls have returned, the
`k`-th `Backward` call takes `y_(n-k+1)` as its output tensor and `x_(n-k+1)`
as its input tensor (the entry `k - 1` of the reversed lists), not swapped; both
have a memory block, and in training on a gradient with a memory block the call
hands the block of that output as `y` and the block of that input as `x` to the
library backward primitive. -/
theorem Backward_consumes_in_reverse (env : Env) (s0 s1 sk : State)
    (xs : List (Int × Tensor)) (ys : List Tensor)
    (hF : runForward env xs s0 = .ok ys s1)
    (gs : List (Int × Tensor)) (rs : List (Tensor × List Tensor))
    (hB : runBackward env gs s1 = .ok rs sk) (hk : gs.length < xs.length) :
    ∃ y x s', ys.reverse[gs.length]? = some y ∧
      (xs.map Prod.snd).reverse[gs.length]? = some x ∧
      popActivations sk = .ok (y, x) s' ∧
      ∃ yData xData, y.blob = some yData ∧ x.blob = some xData ∧
        ∀ flag grad dyData, isTrain env flag → grad.blob = some dyData →
          ∃ s2, (Backward env flag grad sk = .ok (outputOf grad sk, []) s2 ∨
                  Backward env flag grad sk = .fatal .cudnn s2) ∧
            s2.trace = sk.trace ++
              [.call (backwardCall sk yData dyData xData sk.next_blob)] := by
  obtain ⟨hlen, hbuf⟩ := runForward_ok_buf env xs s0 s1 ys hF
  obtain ⟨hyb, hxb⟩ := runForward_ok_blobs env xs s0 s1 ys hF
  have hzl : gs.length < ((ys.zip (xs.map Prod.snd)).reverse).length := by
    simp [hlen]; exact hk
  have hsk := runBackward_ok_buf env gs s1 sk rs _ _ hB hbuf (le_of_lt hzl)
  rw [List.drop_eq_getElem_cons hzl] at hsk
  simp only [stackOf, List.cons_append] at hsk
  have h1 : ys.reverse[gs.length]? =
      some ((ys.zip (xs.map Prod.snd)).reverse[gs.length]).1 := by
    have hy : (ys.zip (xs.map Prod.snd)).map Prod.fst = ys :=
      List.map_fst_zip _ _ (by simp [hlen])
    conv_lhs => rw [← hy]
    rw [← List.map_reverse, List.getElem?_map, List.getElem?_eq_getElem hzl]
    rfl
  have h2 : (xs.map Prod.snd).reverse[gs.length]? =
      some ((ys.zip (xs.map Prod.snd)).reverse[gs.length]).2 := by
    have hx : (ys.zip (xs.map Prod.snd)).map Prod.snd = xs.map Prod.snd :=
      List.map_snd_zip _ _ (by simp [hlen])
    conv_lhs => rw [← hx]
    rw [← List.map_reverse, List.getElem?_map, List.getElem?_eq_getElem hzl]
    rfl
  have hy1 : ((ys.zip (xs.map Prod.snd)).reverse[gs.length]).1.blob ≠ none :=
    hyb _ (List.mem_reverse.1 (List.getElem?_mem h1))
  have hx1 : ((ys.zip (xs.map Prod.snd)).reverse[gs.length]).2.blob ≠ none := by
    have hm := List.mem_reverse.1 (List.getElem?_mem h2)
    obtain ⟨z, hz, hzx⟩ := List.mem_map.1 hm
    rw [← hzx]
    exact hxb z hz
  obtain ⟨yData, hyd⟩ := Option.ne_none_iff_exists'.1 hy1
  obtain ⟨xData, hxd⟩ := Option.ne_none_iff_exists'.1 hx1
  refine ⟨_, _, _, h1, h2, popActivations_cons sk _ _ _ hsk, yData, xData, hyd, hxd, ?_⟩
  intro flag grad dyData ht hg
  rcases Backward_cases env flag grad sk _ _ _ hsk with
    ⟨hn, _⟩ | ⟨_, hnone, _⟩ | ⟨_, y', dy', x', hy', hdy', hx', hcase⟩
  · exact absurd ht hn
  · exfalso
    rcases hnone with h | h | h
    · rw [hyd] at h; cases h
    · rw [hg] at h; cases h
    · rw [hxd] at h; cases h
  · rw [hyd] at hy'; rw [hg] at hdy'; rw [hxd] at hx'
    cases hy'; cases hdy'; cases hx'
    rcases hcase with ⟨_, hB'⟩ | ⟨_, hB'⟩
    · exact ⟨_, Or.inl hB', rfl⟩
    · exact ⟨_, Or.inr hB', rfl⟩

/-- Witness for C4: two `Forward` calls followed by one `Backward`; the second
`Backward` takes the output and the input of the first `Forward`. -/
theorem Backward_consumes_in_reverse_witness :
    ∃ ys s1 rs sk,
      runForward (okEnv 1)
        [(1, ⟨[2, 3, 4, 5], 0, 0, some 100⟩), (1, ⟨[2, 3, 4, 5], 0, 0, some 101⟩)]
        (fresh 5 1 1 1) = .ok ys s1 ∧
      runBackward (okEnv 1) [(1, ⟨[2, 3, 4, 5], 0, 0, some 102⟩)] s1 = .ok rs sk ∧
      ∃ y x s', ys.reverse[1]? = some y ∧
        ([⟨[2, 3, 4, 5], 0, 0, some 100⟩, ⟨[2, 3, 4, 5], 0, 0, some 101⟩] :
          List Tensor).reverse[1]? = some x ∧
        popActivations sk = .ok (y, x) s' :=
  ⟨_, _, _, _, rfl, rfl,
    (Backward_consumes_in_reverse (okEnv 1) (fresh 5 1 1 1) _ _
      [(1, ⟨[2, 3, 4, 5], 0, 0, some 100⟩), (1, ⟨[2, 3, 4, 5], 0, 0, some 101⟩)] _ rfl
      [(1, ⟨[2, 3, 4, 5], 0, 0, some 102⟩)] _ rfl (by decide)).imp
      fun _ h => h.imp fun _ h => h.imp fun _ h => ⟨h.1, h.2.1, h.2.2.1⟩⟩

/-- C10: every returning `Forward`, whatever the flag, pushes the input and then
the output on the buffer, and every returning `Backward`, whatever the flag,
removes the top pair.  Hence for calls on a new adapter in which every initial
part has at least as many `Forward` as `Backward` calls, no `Backward` reads or
pops an empty buffer, the buffer holds `2 * (n - m)` tensors after `n` `Forward`
and `m` `Backward` calls, and the run does return when the inputs are
4-dimensional, the tensors whose data is read have memory blocks and the
library calls succeed. -/
theorem buffer_balance (env : Env) (l : Int) (a b k : Rat) (calls : List Call)
    (hpre : ∀ j, countBackward (calls.take j) ≤ countForward (calls.take j)) :
    (∀ s flag input out s', Forward env flag input s = .ok out s' →
      s'.buf_ = out :: input :: s.buf_) ∧
    (∀ s flag grad r s', Backward env flag grad s = .ok r s' →
      ∃ output input, s.buf_ = output :: input :: s'.buf_) ∧
    run env calls (fresh l a b k) ≠ .undefined .emptyStack ∧
    (∀ s', run env calls (fresh l a b k) = .ok () s' →
      s'.buf_.length = 2 * (countForward calls - countBackward calls)) ∧
    (LibSucceeds env → (∀ f x, Call.forward f x ∈ calls → x.shape.length = 4) →
      (∀ c ∈ calls, callHasBlock env c) →
      ∃ s', run env calls (fresh l a b k) = .ok () s') := by
  have hp : ∀ j, 2 * countBackward (calls.take j) ≤
      (fresh l a b k).buf_.length + 2 * countForward (calls.take j) := by
    intro j
    have := hpre j
    omega
  refine ⟨?_, ?_, run_ne_emptyStack env calls _ hp, ?_, ?_⟩
  · intro s flag input out s' h
    obtain ⟨_, _, _, _, hs⟩ := Forward_eq_ok env flag input s out s' h
    rw [hs]
  · intro s flag grad r s' h
    obtain ⟨o, i, hb, _⟩ := Backward_ok_buf env flag grad s r s' h
    exact ⟨o, i, hb⟩
  · intro s' h
    have := run_ok_buf_length env calls _ s' () h
    simp only [fresh, List.length_nil] at this
    omega
  · intro hl h4 hblk
    exact run_progress env hl calls _ h4 hblk (fresh_blocks l a b k) hp

/-- Witness for C10: two `Forward` calls and a `Backward` outside training; one
pair is left of two. -/
theorem buffer_balance_witness :
    ∃ s', run (okEnv 1)
        [.forward 1 ⟨[2, 3, 4, 5], 0, 0, some 100⟩, .forward 0 ⟨[2, 3, 4, 5], 0, 0, some 101⟩,
         .backward 0 ⟨[2, 3, 4, 5], 0, 0, some 102⟩] (fresh 5 1 1 1) = .ok () s' ∧
      s'.buf_.length = 2 * (2 - 1) :=
  ⟨_, rfl, (buffer_balance (okEnv 1) 5 1 1 1
    [.forward 1 ⟨[2, 3, 4, 5], 0, 0, some 100⟩, .forward 0 ⟨[2, 3, 4, 5], 0, 0, some 101⟩,
     .backward 0 ⟨[2, 3, 4, 5], 0, 0, some 102⟩]
    (by intro j; rcases j with _ | _ | _ | j <;> simp [countForward, countBackward])).2.2.2.1
    _ rfl⟩

/-- C8: for every non-empty sequence of `Forward` calls with 4-dimensional
inputs on a new adapter: when the calls return, the first call has created and
configured the descriptors from the shape and numeric type of its input (the
extents converted to `int`, the window size to `unsigned`) and then dispatched
its forward call; in the whole trace the four descriptor calls occur once, at
the start, and everything after them is a library forward call, one per
`Forward`: no later `Forward` reaches `InitCudnn`.  The sequence never aborts on
a check of `InitCudnn`, so never on the double-initialization check, and it does
return when the library calls succeed and the inputs have memory blocks. -/
theorem descriptors_created_once (env : Env) (l : Int) (a b k : Rat)
    (x : Int × Tensor) (xs : List (Int × Tensor))
    (h4 : ∀ z ∈ x :: xs, z.2.shape.length = 4) :
    (∀ ys s', runForward env (x :: xs) (fresh l a b k) = .ok ys s' →
      ∃ xData y s1 rest fw,
        x.2.blob = some xData ∧ ys = y :: rest ∧
        Forward env x.1 x.2 (fresh l a b k) = .ok y s1 ∧
        s1.trace =
          [ .call .cudnnCreateTensorDescriptor,
            .call (.cudnnSetTensor4dDescriptor (some 0) .CUDNN_TENSOR_NCHW
              (env.GetCudnnDataType x.2.data_type)
              (sizeToInt (x.2.shape.getD 0 0)) (sizeToInt (x.2.shape.getD 1 0))
              (sizeToInt (x.2.shape.getD 2 0)) (sizeToInt (x.2.shape.getD 3 0))),
            .call .cudnnCreateLRNDescriptor,
            .call (.cudnnSetLRNDescriptor (some 2) (intToUnsigned l) a b k),
            .call (.cudnnLRNCrossChannelForward (some 2) (some .CUDNN_LRN_CROSS_CHANNEL_DIM1) 1
              (some 0) xData 0 (some 0) 0) ] ∧
        s'.has_init_cudnn_ = true ∧
        s'.trace = s1.trace ++ fw ∧ fw.length = xs.length ∧
        (∀ e ∈ fw, isForwardCall e = true)) ∧
    (∀ s', runForward env (x :: xs) (fresh l a b k) ≠ .fatal .check s') ∧
    (LibSucceeds env → (∀ z ∈ x :: xs, z.2.blob ≠ none) →
      ∃ ys s', runForward env (x :: xs) (fresh l a b k) = .ok ys s') := by
  refine ⟨?_, ?_, ?_⟩
  · intro ys s' h
    obtain ⟨y, s1, rest, hF, hR, hys⟩ := runForward_cons_ok env x xs _ s' ys h
    obtain ⟨_, hy, xData, hx, hs1⟩ := Forward_eq_ok env x.1 x.2 (fresh l a b k) y s1 hF
    have hi1 : s1.has_init_cudnn_ = true := by rw [hs1]; rfl
    obtain ⟨fw, htr, hlen, hall, hi'⟩ := runForward_init_trace env xs s1 s' rest hi1 hR
    refine ⟨xData, y, s1, rest, fw, hx, hys, hF, ?_, hi', htr, hlen, hall⟩
    rw [hs1]; rfl
  · intro s' h
    have := runForward_fatal_cudnn env (x :: xs) _ s' .check h4 h
    cases this
  · intro hl hb
    exact runForward_progress env hl (x :: xs) _ h4 hb

/-- Witness for C8: two `Forward` calls, the second with another shape. -/
theorem descriptors_created_once_witness :
    ∃ ys s',
      runForward (okEnv 1)
        [(1, ⟨[2, 3, 4, 5], 7, 0, some 100⟩), (0, ⟨[6, 7, 8, 9], 0, 0, some 101⟩)]
        (fresh 5 1 1 1) = .ok ys s' ∧
      ∃ xData y s1 rest fw,
        (some 100 : Option Blob) = some xData ∧ ys = y :: rest ∧
        Forward (okEnv 1) 1 ⟨[2, 3, 4, 5], 7, 0, some 100⟩ (fresh 5 1 1 1) = .ok y s1 ∧
        s1.trace =
          [ .call .cudnnCreateTensorDescriptor,
            .call (.cudnnSetTensor4dDescriptor (some 0) .CUDNN_TENSOR_NCHW 7 2 3 4 5),
            .call .cudnnCreateLRNDescriptor,
            .call (.cudnnSetLRNDescriptor (some 2) 5 1 1 1),
            .call (.cudnnLRNCrossChannelForward (some 2) (some .CUDNN_LRN_CROSS_CHANNEL_DIM1) 1
              (some 0) xData 0 (some 0) 0) ] ∧
        s'.has_init_cudnn_ = true ∧
        s'.trace = s1.trace ++ fw ∧ fw.length = 1 ∧
        (∀ e ∈ fw, isForwardCall e = true) :=
  ⟨_, _, rfl, (descriptors_created_once (okEnv 1) 5 1 1 1
    (1, ⟨[2, 3, 4, 5], 7, 0, some 100⟩) [(0, ⟨[6, 7, 8, 9], 0, 0, some 101⟩)]
    (by intro z hz; simp at hz; rcases hz with hz | hz <;> subst hz <;> rfl)).1 _ _ rfl⟩

end singa
